import Mathlib

/-!
Verification of the sdaudit analysis core against its specification.

This file shallowly embeds the parts of the sdaudit source that the
checked properties are about: the unit model (pkg/types/types.go), the
dependency graph and its analyses (internal/graph), the failure
propagation simulator (internal/propagation/failure.go), the timing
detectors (timing package), the duration parser (timing package), the
type-specific validators (internal/validation), and the issue ordering of
the analyzer (internal/analyzer/analyzer.go).

Conventions of the embedding:
- Go strings are Lean `String`s; character-level work happens on
  `String.data` (Go byte-wise lexicographic comparison of UTF-8 strings
  coincides with code-point lexicographic comparison, which is what the
  list-based comparators below implement).
- Go maps are association lists (`List (key × value)`) looked up with
  `lookupA`; Go map iteration order is unspecified, and no theorem below
  depends on the iteration order chosen by the embedding.
- `sort.Slice` is modelled by `List.insertionSort` with the negation of
  the Go `less` function; `sort.Slice` only guarantees a permutation that
  is sorted with respect to `less`, which insertion sort provides.
- Fallible Go functions returning `(value, error)` pairs are embedded as
  pairs whose second component is an error flag, and functions returning
  `nil`-able pointers as `Option`.
- The core graph type (`Graph`, its `EdgeType` enum and the trivial
  accessors `Edges`, `EdgesFrom`, `EdgesTo`, `Units`) is declared in a
  repository file that is not part of the provided sources; those few
  definitions are modelled from the specification (sections 3 and 4.3) and
  are marked as such.  All analysis functions over them are translated
  from the provided sources.
-/

namespace Sdaudit

/-! ## Character and string machinery (Go string primitives) -/

/-- Three-way comparison of characters by code point (Go compares strings
byte-wise; for UTF-8 this coincides with code-point order). -/
def cmpChar (a b : Char) : Ordering :=
  if a.toNat < b.toNat then .lt else if b.toNat < a.toNat then .gt else .eq

/-- Three-way lexicographic comparison of character lists, the order Go
uses for `<` on strings. -/
def cmpL : List Char → List Char → Ordering
  | [], [] => .eq
  | [], _ :: _ => .lt
  | _ :: _, [] => .gt
  | a :: as, b :: bs =>
    match cmpChar a b with
    | .eq => cmpL as bs
    | o => o

/-- Go `a < b` on strings. -/
def strLt (a b : String) : Bool := cmpL a.data b.data = Ordering.lt

/-- Go `a <= b` on strings (used as the sort relation for `sort.Strings`). -/
def strLe (a b : String) : Bool := cmpL a.data b.data ≠ Ordering.gt

/-- Does the list start with the given word?  Models Go
`strings.HasPrefix` at the character-list level. -/
def startsWithL : List Char → List Char → Bool
  | _, [] => true
  | [], _ :: _ => false
  | c :: cs, p :: ps => c = p && startsWithL cs ps

/-- Go `strings.TrimPrefix`: remove one leading occurrence of the word if
present, otherwise return the list unchanged. -/
def trimPreL (l pre : List Char) : List Char :=
  if startsWithL l pre then l.drop pre.length else l

/-- Go `strings.HasSuffix` at the character-list level. -/
def endsWithL (l suf : List Char) : Bool := startsWithL l.reverse suf.reverse

/-- Go `strings.TrimSuffix`: remove one trailing occurrence of the word if
present, otherwise return the list unchanged. -/
def trimSufL (l suf : List Char) : List Char :=
  if endsWithL l suf then l.take (l.length - suf.length) else l

/-- Go `strings.Contains` for a single-character pattern (the only form
the embedded code needs beyond word patterns). -/
def containsCharL (l : List Char) (c : Char) : Bool := l.any (fun x => x = c)

/-- Does the word occur contiguously in the list?  Models Go
`strings.Contains`. -/
def containsL : List Char → List Char → Bool
  | _, [] => true
  | [], _ :: _ => false
  | c :: cs, pat => startsWithL (c :: cs) pat || containsL cs pat

/-- ASCII lowercase of one character.  Go's `strings.ToLower` lowercases
all of Unicode; every string the embedded code lowercases is ASCII, where
the two agree. -/
def lowerChar (c : Char) : Char :=
  if 'A' ≤ c ∧ c ≤ 'Z' then Char.ofNat (c.toNat + 32) else c

/-- ASCII `strings.ToLower` on character lists. -/
def lowerL (l : List Char) : List Char := l.map lowerChar

/-- Go `unicode.IsSpace` restricted to ASCII, which is what
`strings.TrimSpace` and the `\s` regex class see on the inputs the
duration parser handles. -/
def isSpaceGo (c : Char) : Bool :=
  c = ' ' || c = '\t' || c = '\n' || c = '\x0b' || c = '\x0c' || c = '\r'

/-- Go `strings.TrimSpace` (leading and trailing whitespace removed). -/
def trimSpaceL (l : List Char) : List Char :=
  ((l.dropWhile isSpaceGo).reverse.dropWhile isSpaceGo).reverse

/-- Go `strings.Fields`: maximal runs of non-whitespace characters. -/
def fieldsL : List Char → List (List Char)
  | [] => []
  | c :: cs =>
    if isSpaceGo c then fieldsL cs
    else
      match fieldsL cs with
      | [] => [[c]]
      | w :: ws =>
        match cs with
        | [] => [[c]]
        | d :: _ => if isSpaceGo d then [c] :: w :: ws else (c :: w) :: ws

/-- Numeric value of a list of ASCII decimal digits. -/
def natOfDigits (l : List Char) : ℕ :=
  l.foldl (fun acc c => acc * 10 + (c.toNat - '0'.toNat)) 0

/-- Association-list lookup, the embedding of Go map indexing. -/
def lookupA {β : Type} (l : List (String × β)) (k : String) : Option β :=
  (l.find? (fun p => p.1 = k)).map Prod.snd

/-! ## Ordering helpers for the `sort.Slice` model

Each Go `sort.Slice` call below sorts by a lexicographic key.  The
records are mapped to a key whose three-way comparison `cmp` is proved
lawful once, and sortedness statements follow from
`List.sorted_insertionSort` via the `IsTotal` and `IsTrans` lemmas. -/

theorem char_toNat_eq_iff (a b : Char) : a.toNat = b.toNat ↔ a = b := by
  constructor
  · intro h; exact Char.ext (UInt32.toNat.inj h)
  · intro h; rw [h]

theorem cmpChar_eq_iff (a b : Char) : cmpChar a b = Ordering.eq ↔ a = b := by
  unfold cmpChar
  rw [← char_toNat_eq_iff]
  split
  · simp; omega
  · split
    · simp; omega
    · simp; omega

theorem cmpChar_swap (a b : Char) :
    cmpChar a b = Ordering.lt ↔ cmpChar b a = Ordering.gt := by
  unfold cmpChar
  split <;> split <;> simp_all <;> omega

theorem cmpChar_lt_trans {a b c : Char} (h1 : cmpChar a b = Ordering.lt)
    (h2 : cmpChar b c = Ordering.lt) : cmpChar a c = Ordering.lt := by
  unfold cmpChar at *
  split at h1
  · split at h2
    · split
      · rfl
      · omega
    · split at h2 <;> simp_all
  · split at h1 <;> simp_all

theorem cmpL_eq_iff : ∀ a b : List Char, cmpL a b = Ordering.eq ↔ a = b
  | [], [] => by simp [cmpL]
  | [], _ :: _ => by simp [cmpL]
  | _ :: _, [] => by simp [cmpL]
  | a :: as, b :: bs => by
    simp only [cmpL]
    rcases h : cmpChar a b with _ | _ | _
    · have hab : a ≠ b := by
        intro he; rw [← cmpChar_eq_iff a b] at he; simp [he] at h
      simp [hab]
    · have hab : a = b := (cmpChar_eq_iff a b).mp h
      have := cmpL_eq_iff as bs
      simp [hab, this]
    · have hab : a ≠ b := by
        intro he; rw [← cmpChar_eq_iff a b] at he; simp [he] at h
      simp [hab]

theorem cmpL_swap : ∀ a b : List Char,
    cmpL a b = Ordering.lt ↔ cmpL b a = Ordering.gt
  | [], [] => by simp [cmpL]
  | [], _ :: _ => by simp [cmpL]
  | _ :: _, [] => by simp [cmpL]
  | a :: as, b :: bs => by
    simp only [cmpL]
    rcases h : cmpChar a b with _ | _ | _
    · have hba : cmpChar b a = Ordering.gt := (cmpChar_swap a b).mp h
      simp [hba]
    · have hba : cmpChar b a = Ordering.eq := by
        rw [cmpChar_eq_iff] at h ⊢; exact h.symm
      simpa [hba] using cmpL_swap as bs
    · have hba : cmpChar b a = Ordering.lt := by
        rw [cmpChar_swap b a]; exact h
      simp [hba]

theorem cmpL_lt_trans : ∀ {a b c : List Char}, cmpL a b = Ordering.lt →
    cmpL b c = Ordering.lt → cmpL a c = Ordering.lt
  | [], [], _, h1, _ => by simp [cmpL] at h1
  | [], _ :: _, [], _, h2 => by simp [cmpL] at h2
  | [], _ :: _, _ :: _, _, _ => by simp [cmpL]
  | _ :: _, [], _, h1, _ => by simp [cmpL] at h1
  | _ :: _, _ :: _, [], _, h2 => by simp [cmpL] at h2
  | a :: as, b :: bs, c :: cs, h1, h2 => by
    simp only [cmpL] at *
    rcases hab : cmpChar a b with _ | _ | _ <;> rw [hab] at h1
    · rcases hbc : cmpChar b c with _ | _ | _ <;> rw [hbc] at h2
      · simp [cmpChar_lt_trans hab hbc]
      · have heq : b = c := (cmpChar_eq_iff b c).mp hbc
        subst heq
        simp [hab]
      · exact absurd h2 (by simp)
    · have heq : a = b := (cmpChar_eq_iff a b).mp hab
      subst heq
      rcases hbc : cmpChar a c with _ | _ | _
      case lt => rfl
      case eq =>
        rw [hbc] at h2
        exact cmpL_lt_trans h1 h2
      case gt =>
        rw [hbc] at h2
        exact Ordering.noConfusion h2
    · exact absurd h1 (by simp)

/-- Lawfulness of a three-way comparator: it detects equality, is
antisymmetric under argument swap, and its strict part is transitive.
Every `sort.Slice` call in the embedded code compares by such a key. -/
structure CmpLaws {α : Type} (cmp : α → α → Ordering) : Prop where
  eq_iff : ∀ a b, cmp a b = Ordering.eq ↔ a = b
  swap : ∀ a b, cmp a b = Ordering.lt ↔ cmp b a = Ordering.gt
  lt_trans : ∀ a b c, cmp a b = Ordering.lt → cmp b c = Ordering.lt →
    cmp a c = Ordering.lt

/-- Three-way comparison on naturals. -/
def cmpNat (a b : ℕ) : Ordering :=
  if a < b then .lt else if b < a then .gt else .eq

/-- Lexicographic combination of two comparators on a pair. -/
def cmpProd {α β : Type} (f : α → α → Ordering) (g : β → β → Ordering)
    (x y : α × β) : Ordering :=
  match f x.1 y.1 with
  | .eq => g x.2 y.2
  | o => o

theorem cmpNat_laws : CmpLaws cmpNat := by
  constructor
  · intro a b; unfold cmpNat; split
    · simp; omega
    · split <;> simp <;> omega
  · intro a b; unfold cmpNat
    split <;> split <;> simp_all <;> omega
  · intro a b c h1 h2; unfold cmpNat at *
    split at h1
    · split at h2
      · split
        · rfl
        · omega
      · split at h2 <;> simp_all
    · split at h1 <;> simp_all

theorem cmpL_laws : CmpLaws cmpL :=
  ⟨cmpL_eq_iff, cmpL_swap, fun _ _ _ => cmpL_lt_trans⟩

theorem cmpProd_laws {α β : Type} {f : α → α → Ordering}
    {g : β → β → Ordering} (hf : CmpLaws f) (hg : CmpLaws g) :
    CmpLaws (cmpProd f g) := by
  constructor
  · intro a b
    unfold cmpProd
    rcases h : f a.1 b.1 with _ | _ | _
    · constructor
      · intro hh; exact Ordering.noConfusion hh
      · intro hh
        rw [hh, (hf.eq_iff b.1 b.1).mpr rfl] at h
        exact Ordering.noConfusion h
    · rw [Prod.ext_iff]
      have h1 : a.1 = b.1 := (hf.eq_iff a.1 b.1).mp h
      simp [h1, hg.eq_iff a.2 b.2]
    · constructor
      · intro hh; exact Ordering.noConfusion hh
      · intro hh
        rw [hh, (hf.eq_iff b.1 b.1).mpr rfl] at h
        exact Ordering.noConfusion h
  · intro a b
    unfold cmpProd
    rcases h : f a.1 b.1 with _ | _ | _
    · have : f b.1 a.1 = Ordering.gt := (hf.swap a.1 b.1).mp h
      simp [this]
    · have h1 : a.1 = b.1 := (hf.eq_iff a.1 b.1).mp h
      have : f b.1 a.1 = Ordering.eq := by rw [hf.eq_iff]; exact h1.symm
      simp [this, hg.swap a.2 b.2]
    · have : f b.1 a.1 = Ordering.lt := by rw [hf.swap]; exact h
      simp [this]
  · intro a b c h1 h2
    unfold cmpProd at *
    rcases hab : f a.1 b.1 with _ | _ | _ <;> rw [hab] at h1
    · rcases hbc : f b.1 c.1 with _ | _ | _ <;> rw [hbc] at h2
      · simp [hf.lt_trans _ _ _ hab hbc]
      · have : b.1 = c.1 := (hf.eq_iff b.1 c.1).mp hbc
        rw [← this]
        simp [hab]
      · exact Ordering.noConfusion h2
    · have heq : a.1 = b.1 := (hf.eq_iff a.1 b.1).mp hab
      rcases hbc : f b.1 c.1 with _ | _ | _ <;> rw [hbc] at h2
      · rw [heq, hbc]
      · rw [heq, hbc]
        exact hg.lt_trans _ _ _ h1 h2
      · exact Ordering.noConfusion h2
    · exact Ordering.noConfusion h1

/-- The non-strict relation induced by comparing keys: `a` may precede `b`
whenever the key of `a` does not compare greater.  This is the negation of
a Go `sort.Slice` less function for a lexicographic key. -/
def keyLe {α K : Type} (cmp : K → K → Ordering) (key : α → K) (a b : α) :
    Prop := cmp (key a) (key b) ≠ Ordering.gt

instance {α K : Type} (cmp : K → K → Ordering) (key : α → K) :
    DecidableRel (keyLe cmp key) := by
  intro a b
  unfold keyLe
  infer_instance

theorem keyLe_total {α K : Type} {cmp : K → K → Ordering} (h : CmpLaws cmp)
    (key : α → K) : ∀ a b : α, keyLe cmp key a b ∨ keyLe cmp key b a := by
  intro a b
  unfold keyLe
  by_contra hc
  push_neg at hc
  obtain ⟨h1, h2⟩ := hc
  rw [← h.swap] at h1
  rw [h1] at h2
  exact Ordering.noConfusion h2

theorem keyLe_trans {α K : Type} {cmp : K → K → Ordering} (h : CmpLaws cmp)
    (key : α → K) : ∀ a b c : α, keyLe cmp key a b → keyLe cmp key b c →
    keyLe cmp key a c := by
  intro a b c h1 h2
  unfold keyLe at *
  rcases hab : cmp (key a) (key b) with _ | _ | _
  · rcases hbc : cmp (key b) (key c) with _ | _ | _
    · simp [h.lt_trans _ _ _ hab hbc]
    · have : key b = key c := (h.eq_iff _ _).mp hbc
      rw [← this, hab]
      simp
    · exact absurd hbc h2
  · have : key a = key b := (h.eq_iff _ _).mp hab
    rw [this]
    exact h2
  · exact absurd hab h1

/-! ## Unit model (pkg/types/types.go) -/

/-- Severity levels of pkg/types/types.go, in the declared (iota) order
info < low < medium < high < critical. -/
inductive Severity : Type
  | info
  | low
  | medium
  | high
  | critical
deriving Repr, DecidableEq

/-- The integer value of a severity (Go represents the enum as an int and
compares severities with integer comparison). -/
def Severity.toNat : Severity → ℕ
  | .info => 0
  | .low => 1
  | .medium => 2
  | .high => 3
  | .critical => 4

/-- Directive of pkg/types/types.go: one `Key=Value` line of a unit file. -/
structure Directive : Type where
  Key : String
  Value : String
  Line : ℤ
deriving Repr, DecidableEq

/-- Section of pkg/types/types.go: a named section and its directives,
keyed by directive name, ordered values per key. -/
structure Section : Type where
  Name : String
  Directives : List (String × List Directive)
deriving Repr, DecidableEq

/-- UnitFile of pkg/types/types.go.  The Go `Type` field (unit type such as
"service" or "mount") is called `type_` here because `Type` is reserved in
Lean. -/
structure UnitFile : Type where
  Name : String
  Path : String
  type_ : String
  Sections : List (String × Section)
  Raw : String
deriving Repr, DecidableEq

/-- UnitFile.GetDirective of pkg/types/types.go: first value for a
directive, or the empty string if the section or key is absent. -/
def UnitFile.GetDirective (u : UnitFile) (sec key : String) : String :=
  match lookupA u.Sections sec with
  | some s =>
    match lookupA s.Directives key with
    | some (d :: _) => d.Value
    | some [] => ""
    | none => ""
  | none => ""

/-- UnitFile.GetDirectives of pkg/types/types.go: all values for a
directive (Go returns nil, i.e. the empty slice, when absent). -/
def UnitFile.GetDirectives (u : UnitFile) (sec key : String) :
    List Directive :=
  match lookupA u.Sections sec with
  | some s =>
    match lookupA s.Directives key with
    | some ds => ds
    | none => []
  | none => []

/-- UnitFile.HasDirective of pkg/types/types.go. -/
def UnitFile.HasDirective (u : UnitFile) (sec key : String) : Bool :=
  match lookupA u.Sections sec with
  | some s =>
    match lookupA s.Directives key with
    | some _ => true
    | none => false
  | none => false

/-- getDirectiveValue, the section-level helper shared by the validation
and timing packages: first value of a directive in a section, empty string
when absent (a nil section also yields the empty string). -/
def getDirectiveValue (section_ : Option Section) (key : String) : String :=
  match section_ with
  | none => ""
  | some s =>
    match lookupA s.Directives key with
    | some (d :: _) => d.Value
    | some [] => ""
    | none => ""

/-! ## Dependency graph (core type modelled from the spec; analyses from
internal/graph) -/

/-- Modelled from the spec: the edge-type enum of the graph package
(spec section 3, "Edge type"), in the order of the specification table,
which also serves as the deterministic total order ("sorted by edge-type
ordinal").  The core graph source file is not among the provided sources;
no checked property depends on the particular ordinal values. -/
inductive EdgeType : Type
  | Requires
  | Requisite
  | Wants
  | BindsTo
  | PartOf
  | Conflicts
  | After
  | Before
  | TriggeredBy
  | PropagatesReloadTo
  | ReloadPropagatedFrom
deriving Repr, DecidableEq

/-- Ordinal of an edge type (its position in the declaration order). -/
def EdgeType.ord : EdgeType → ℕ
  | .Requires => 0
  | .Requisite => 1
  | .Wants => 2
  | .BindsTo => 3
  | .PartOf => 4
  | .Conflicts => 5
  | .After => 6
  | .Before => 7
  | .TriggeredBy => 8
  | .PropagatesReloadTo => 9
  | .ReloadPropagatedFrom => 10

/-- Modelled from the spec: an edge of the dependency graph (spec section
3, "Edge").  `From` is called `efrom` because `from` is reserved in Lean;
`Type` is called `etype`. -/
structure Edge : Type where
  efrom : String
  eto : String
  etype : EdgeType
  File : String
  Line : ℤ
  Implicit : Bool
deriving Repr, DecidableEq

/-- Modelled from the spec: the graph (spec section 3, "Graph") owns the
mapping from unit name to parsed unit record (placeholder nodes that were
mentioned but never parsed have no entry) and the ordered sequence of all
edges.  The `outgoing`/`incoming` indices and dense node ids are derived
data and are represented here by filtering `allEdges`. -/
structure Graph : Type where
  units : List (String × UnitFile)
  allEdges : List Edge
deriving Repr, DecidableEq

/-- Modelled from the spec: `edges()` accessor (spec section 4.3). -/
def Graph.Edges (g : Graph) : List Edge := g.allEdges

/-- Modelled from the spec: `edges_from(name)` accessor — the `outgoing`
index of the spec (section 3) kept consistent with `edges`. -/
def Graph.EdgesFrom (g : Graph) (name : String) : List Edge :=
  g.allEdges.filter (fun e => e.efrom = name)

/-- Modelled from the spec: `edges_to(name)` accessor — the `incoming`
index of the spec (section 3). -/
def Graph.EdgesTo (g : Graph) (name : String) : List Edge :=
  g.allEdges.filter (fun e => e.eto = name)

/-- Modelled from the spec: `units()` accessor (spec section 4.3),
the unit records with a parsed unit file. -/
def Graph.Units (g : Graph) : List UnitFile := g.units.map Prod.snd

/-- Modelled from the spec: `unit(name)` accessor. -/
def Graph.Unit (g : Graph) (name : String) : Option UnitFile :=
  lookupA g.units name

/-- All node names of the graph: every unit name and every edge endpoint
(placeholder nodes included), deduplicated.  Models the spec's `node_ids`
domain (section 3). -/
def Graph.nodeNames (g : Graph) : List String :=
  (g.units.map Prod.fst ++
    g.allEdges.flatMap (fun e => [e.efrom, e.eto])).dedup

/-- One step of the breadth-first search of Graph.ReachableFrom
(unnamed graph reachability source file, `ReachableFrom`): scan the edges
of the current node, appending unseen endpoints to the queue.  `forward`
selects outgoing edges (targets) versus incoming edges (sources). -/
def bfsScanEdges (forward : Bool) (edges : List Edge) :
    List String × List String → List String × List String :=
  fun acc =>
    edges.foldl
      (fun (acc : List String × List String) e =>
        let target := if forward then e.eto else e.efrom
        if target ∈ acc.2 then acc else (acc.1 ++ [target], target :: acc.2))
      acc

/-- The breadth-first search loop of Graph.ReachableFrom, with explicit
fuel so that the recursion is structural.  Each iteration removes one
queue entry, and entries are only enqueued when first visited, so any
fuel of at least 1 + number of edges + 1 completes the search. -/
def bfsLoop (g : Graph) (forward : Bool) :
    ℕ → List String → List String → List String
  | 0, _, visited => visited
  | _ + 1, [], visited => visited
  | fuel + 1, current :: queue, visited =>
    let edges := if forward then g.EdgesFrom current else g.EdgesTo current
    let acc := bfsScanEdges forward edges (queue, visited)
    bfsLoop g forward fuel acc.1 acc.2

/-- Graph.ReachableFrom of the graph reachability source: BFS over
outgoing (forward) or incoming (backward) edges; the result excludes the
starting unit and is sorted (`sort.Strings`). -/
def Graph.ReachableFrom (g : Graph) (unit : String) (forward : Bool) :
    List String :=
  let visited := bfsLoop g forward (g.allEdges.length + 2) [unit] [unit]
  List.insertionSort (keyLe cmpL String.data)
    (visited.filter (fun n => n ≠ unit))

/-- Graph.TransitiveDependencies of the graph reachability source: all
units a unit transitively depends on (forward reachability). -/
def Graph.TransitiveDependencies (g : Graph) (unit : String) : List String :=
  g.ReachableFrom unit true

/-! ## Cycle detection (internal/graph/tarjan.go) -/

/-- SCC of internal/graph/tarjan.go: units of a strongly connected
component, the edges inside it, and the distinct edge types involved. -/
structure SCC : Type where
  Units : List String
  Edges : List Edge
  EdgeTypes : List EdgeType
deriving Repr, DecidableEq

/-- Mutual-reachability test over the graph's edges.  Models the defining
property of the strongly connected components that gonum's `TarjanSCC`
(an external library called by Graph.FindCycles) returns: `b` lies in the
component of `a` iff each reaches the other. -/
def sameSCC (g : Graph) (a b : String) : Bool :=
  b ∈ bfsLoop g true (g.allEdges.length + 2) [a] [a] &&
    a ∈ bfsLoop g true (g.allEdges.length + 2) [b] [b]

/-- The strongly connected component of one node. -/
def sccOf (g : Graph) (n : String) : List String :=
  g.nodeNames.filter (fun m => sameSCC g n m)

/-- All strongly connected components, one per distinct component, in
first-seen node order.  Models the component list that gonum's
`TarjanSCC` hands to Graph.FindCycles (the order is irrelevant here:
FindCycles sorts its result). -/
def sccComponents (g : Graph) : List (List String) :=
  g.nodeNames.foldl
    (fun acc n => if acc.any (fun c => n ∈ c) then acc else acc ++ [sccOf g n])
    []

/-- Construction of one SCC record inside Graph.FindCycles
(internal/graph/tarjan.go, lines 33-71): member names sorted, all edges
with both endpoints inside the component, and their distinct edge types
sorted by ordinal. -/
def mkSCC (g : Graph) (comp : List String) : SCC :=
  let cycleEdges := g.allEdges.filter (fun e => e.efrom ∈ comp ∧ e.eto ∈ comp)
  { Units := List.insertionSort (keyLe cmpL String.data) comp
    Edges := cycleEdges
    EdgeTypes := List.insertionSort (keyLe cmpNat EdgeType.ord)
      ((cycleEdges.map (fun e => e.etype)).dedup) }

/-- The Go comparator of the final `sort.Slice` in Graph.FindCycles:
cycles ordered by their first member name, empty ones first. -/
def cyclesLess (a b : SCC) : Bool :=
  match a.Units, b.Units with
  | [], _ => true
  | _ :: _, [] => false
  | x :: _, y :: _ => strLt x y

/-- Graph.FindCycles of internal/graph/tarjan.go: all non-trivial
(size > 1) strongly connected components, sorted by first member name. -/
def Graph.FindCycles (g : Graph) : List SCC :=
  List.insertionSort (fun a b => cyclesLess b a = false)
    ((sccComponents g).filterMap
      (fun comp => if 1 < comp.length then some (mkSCC g comp) else none))

/-- Graph.HasCycles of internal/graph/tarjan.go. -/
def Graph.HasCycles (g : Graph) : Bool := g.FindCycles.length > 0

/-- SCC.CycleSeverity of internal/graph/tarjan.go (lines 137-153):
"critical" when a Requires/BindsTo/Requisite edge type is involved, else
"high" when Wants is involved, else "medium". -/
def SCC.CycleSeverity (s : SCC) : String :=
  if s.EdgeTypes.any
      (fun et => et = EdgeType.Requires || et = EdgeType.BindsTo ||
        et = EdgeType.Requisite) then
    "critical"
  else if s.EdgeTypes.any (fun et => et = EdgeType.Wants) then "high"
  else "medium"

/-! ## Dangling references (internal/graph/analysis.go) -/

/-- DanglingRef of internal/graph/analysis.go: a reference to a unit with
no parsed unit record. -/
structure DanglingRef : Type where
  From : String
  To : String
  etype : EdgeType
  File : String
  Line : ℤ
deriving Repr, DecidableEq

/-- danglingRefSeverityOrder of internal/graph/analysis.go (lines 55-68):
sort rank of a dangling reference, lower is more severe. -/
def danglingRefSeverityOrder (et : EdgeType) : ℕ :=
  match et with
  | .Requires | .Requisite | .BindsTo => 0
  | .Wants => 1
  | .After | .Before => 2
  | _ => 3

/-- DanglingRef.Severity of internal/graph/analysis.go (lines 70-82). -/
def DanglingRef.Severity (d : DanglingRef) : String :=
  match d.etype with
  | .Requires | .Requisite | .BindsTo => "high"
  | .Wants => "medium"
  | .After | .Before => "low"
  | _ => "info"

/-- The sort key of the `sort.Slice` call in Graph.FindDanglingRefs:
severity rank, then `From`, then `To`. -/
def danglingKey (d : DanglingRef) : ℕ × (List Char × List Char) :=
  (danglingRefSeverityOrder d.etype, (d.From.data, d.To.data))

/-- The sort relation of Graph.FindDanglingRefs (the negation of its Go
`less` function). -/
def danglingLe : DanglingRef → DanglingRef → Prop :=
  keyLe (cmpProd cmpNat (cmpProd cmpL cmpL)) danglingKey

instance : DecidableRel danglingLe := by
  unfold danglingLe
  infer_instance

/-- Graph.FindDanglingRefs of internal/graph/analysis.go (lines 17-53):
every edge whose target has no parsed unit record, sorted by severity
rank, then `From`, then `To`. -/
def mkDanglingRef (e : Edge) : DanglingRef :=
  { From := e.efrom, To := e.eto, etype := e.etype, File := e.File
    Line := e.Line }

def Graph.FindDanglingRefs (g : Graph) : List DanglingRef :=
  let dangling :=
    (g.allEdges.filter (fun e => lookupA g.units e.eto = none)).map
      mkDanglingRef
  List.insertionSort danglingLe dangling

/-! ## Failure propagation (internal/propagation/failure.go) -/

/-- PropagationSemantics of internal/propagation/failure.go (lines 9-16).
The free-text `Description` field is omitted from the embedding. -/
structure PropagationSemantics : Type where
  etype : EdgeType
  StartFailure : Bool
  StopPropagates : Bool
  Immediate : Bool
deriving Repr, DecidableEq

/-- GetSemantics of internal/propagation/failure.go (lines 65-74),
with the `Semantics` table (lines 18-63) inlined: edge types without a
table entry get the all-false default. -/
def GetSemantics (et : EdgeType) : PropagationSemantics :=
  match et with
  | .Requires =>
    { etype := et, StartFailure := true, StopPropagates := false
      Immediate := false }
  | .Requisite =>
    { etype := et, StartFailure := true, StopPropagates := false
      Immediate := true }
  | .BindsTo =>
    { etype := et, StartFailure := true, StopPropagates := true
      Immediate := false }
  | .Wants =>
    { etype := et, StartFailure := false, StopPropagates := false
      Immediate := false }
  | .PartOf =>
    { etype := et, StartFailure := false, StopPropagates := true
      Immediate := false }
  | .Conflicts =>
    { etype := et, StartFailure := false, StopPropagates := false
      Immediate := true }
  | _ =>
    { etype := et, StartFailure := false, StopPropagates := false
      Immediate := false }

/-- AffectedUnit of internal/propagation/failure.go (lines 84-91). -/
structure AffectedUnit : Type where
  Name : String
  Impact : String
  PropagationPath : List String
  etype : EdgeType
  Severity : String
deriving Repr, DecidableEq

/-- The severity assigned to one propagation step inside SimulateFailure
(internal/propagation/failure.go, lines 134-141). -/
def propStepSeverity (et : EdgeType) : String :=
  if et = EdgeType.Requisite then "critical"
  else if et = EdgeType.BindsTo ∨ et = EdgeType.Requires then "high"
  else "medium"

/-- The decision taken for one edge inside the `propagate` closure of
SimulateFailure (lines 121-132): the new impact label and whether to
propagate, as a function of the sweep's impact type and the edge's
semantics. -/
def propDecision (sem : PropagationSemantics) (impactType : String) :
    String × Bool :=
  if impactType = "fail" then
    if sem.StartFailure then ("fail_to_start", true) else ("", false)
  else if impactType = "stop" then
    if sem.StopPropagates then ("stop", true) else ("", false)
  else ("", false)

/-- The edge loop of the `propagate` closure of SimulateFailure (lines
110-153), abstracted over the recursive call (`step`, which receives the
dependent unit, the visited set, the extended path, and the new impact
label, and returns the updated visited set and the records it adds).
Returns the updated visited set and the records appended by this loop. -/
def propagateLoop
    (step : String → List String → List String → String →
      List String × List AffectedUnit) :
    List Edge → List String → List String → String →
      List String × List AffectedUnit
  | [], visited, _, _ => (visited, [])
  | e :: rest, visited, path, impactType =>
    let sem := GetSemantics e.etype
    let dependent := e.efrom
    let newPath := path ++ [dependent]
    let d := propDecision sem impactType
    if d.2 ∧ dependent ∉ visited then
      let rec1 :=
        { Name := dependent, Impact := d.1, PropagationPath := newPath
          etype := e.etype, Severity := propStepSeverity e.etype }
      let s := step dependent visited newPath d.1
      let r := propagateLoop step rest s.1 path impactType
      (r.1, rec1 :: s.2 ++ r.2)
    else propagateLoop step rest visited path impactType

/-- The recursive `propagate` closure of SimulateFailure (lines 101-154),
with explicit fuel so the recursion is structural.  Each nested call
visits a previously unvisited unit, so any fuel exceeding the number of
distinct names (bounded by the edge count plus one) completes the
simulation exactly as the Go recursion does. -/
def propagate (g : Graph) :
    ℕ → String → List String → List String → String →
      List String × List AffectedUnit
  | 0, _, visited, _, _ => (visited, [])
  | fuel + 1, unit, visited, path, impactType =>
    if unit ∈ visited then (visited, [])
    else
      propagateLoop (fun dep v p i => propagate g fuel dep v p i)
        (g.EdgesTo unit) (unit :: visited) path impactType

/-- The records produced by the first sweep of SimulateFailure (line 157):
propagation of "fail" from the failed unit with an empty visited set. -/
def failSweep (g : Graph) (failedUnit : String) : List AffectedUnit :=
  (propagate g (g.allEdges.length + 2) failedUnit [] [failedUnit] "fail").2

/-- The records produced by the second sweep of SimulateFailure (lines
159-162): propagation of "stop" after the visited set is reset to contain
the failed unit. -/
def stopSweep (g : Graph) (failedUnit : String) : List AffectedUnit :=
  (propagate g (g.allEdges.length + 2) failedUnit [failedUnit] [failedUnit]
    "stop").2

/-- FailureImpact of internal/propagation/failure.go (lines 76-82). -/
structure FailureImpact : Type where
  FailedUnit : String
  AffectedUnits : List AffectedUnit
  TotalAffected : ℕ
  CriticalChain : List String
deriving Repr, DecidableEq

/-- The critical-chain selection of SimulateFailure (lines 166-175): the
longest propagation path among records of severity "critical" or "high". -/
def criticalChain (affected : List AffectedUnit) : List String :=
  affected.foldl
    (fun longest a =>
      if (a.Severity = "critical" ∨ a.Severity = "high") ∧
          longest.length < a.PropagationPath.length then
        a.PropagationPath
      else longest)
    []

/-- SimulateFailure of internal/propagation/failure.go (lines 93-178). -/
def SimulateFailure (g : Graph) (failedUnit : String) : FailureImpact :=
  let affected := failSweep g failedUnit ++ stopSweep g failedUnit
  { FailedUnit := failedUnit
    AffectedUnits := affected
    TotalAffected := affected.length
    CriticalChain := criticalChain affected }

/-! ## Timing detectors (timing package and propagation deadlock file) -/

/-- TimeoutConfig of the timing package.  Durations are Go
`time.Duration` values, i.e. signed integer nanoseconds; the value 0
encodes "infinity" for timeouts that can be disabled (the package's own
convention, cf. its `DefaultJobTimeoutSec = 0 // infinity` and
`FormatDuration`, which prints 0 as "infinity"). -/
structure TimeoutConfig : Type where
  Unit : String
  TimeoutStartSec : ℤ
  TimeoutStopSec : ℤ
  TimeoutAbortSec : ℤ
  JobTimeoutSec : ℤ
  RestartSec : ℤ
  Source : String
deriving Repr, DecidableEq

/-- TimeoutDeadlock of the propagation deadlock source file.  The
free-text `Description` field (a `fmt.Sprintf` presentation string) is
omitted from the embedding. -/
structure TimeoutDeadlock : Type where
  Unit : String
  Severity : String
deriving Repr, DecidableEq

/-- DetectTimeoutDeadlocks of the propagation deadlock source file (lines
252-291): flags units that set `JobTimeoutSec=` and have more than 10
transitive forward dependencies and more than 3 direct `After=` edges.
Go iterates the unit map in unspecified order; the embedding iterates the
association list in order (no checked property depends on the order). -/
def DetectTimeoutDeadlocks (g : Graph) (units : List (String × UnitFile)) :
    List TimeoutDeadlock :=
  units.filterMap
    (fun p =>
      let name := p.1
      let unit := p.2
      let jobTimeout := unit.GetDirective "Unit" "JobTimeoutSec"
      if jobTimeout = "" then none
      else
        let afterCount :=
          ((g.EdgesFrom name).filter
            (fun e => e.etype = EdgeType.After)).length
        let transDeps := g.TransitiveDependencies name
        if 10 < transDeps.length ∧ 3 < afterCount then
          some { Unit := name, Severity := "medium" }
        else none)

/-- CascadeRisk of the timing cascade source file.  The free-text
`Description` field (built with `fmt.Sprintf` and Go duration formatting)
is omitted from the embedding. -/
structure CascadeRisk : Type where
  Unit : String
  CriticalPath : ℤ
  OwnTimeout : ℤ
  Risk : String
  Recommendation : String
  File : String
  Line : ℤ
deriving Repr, DecidableEq

/-- The network targets list of detectNetworkDependencyRisks. -/
def networkTargets : List String := ["network-online.target", "network.target"]

/-- Does this unit depend on one of the network targets through an
`After`, `Requires` or `Wants` edge (the inner loop of
detectNetworkDependencyRisks, lines 160-170)? -/
def dependsOnNetwork (edges : List Edge) : Bool :=
  edges.any
    (fun e =>
      networkTargets.any
        (fun nt =>
          e.eto = nt &&
            (e.etype = EdgeType.After || e.etype = EdgeType.Requires ||
              e.etype = EdgeType.Wants)))

/-- The risk classification of detectNetworkDependencyRisks (timing
cascade source, lines 184-189): "high", overridden to "critical" below 10
seconds and to "medium" at or above 20 seconds. -/
def networkRiskClass (t : ℤ) : String :=
  if t < 10000000000 then "critical"
  else if 20000000000 ≤ t then "medium"
  else "high"

/-- detectNetworkDependencyRisks of the timing cascade source file (lines
148-207): a unit with a network-target dependency whose TimeoutStartSec
is positive (0 encodes a disabled/infinite timeout) and under 30 seconds
is flagged; under 10s the risk is "critical", at or above 20s it is
"medium", otherwise "high".  `timeouts` is the Go timeout-config map,
embedded as a lookup function. -/
def detectNetworkDependencyRisks (g : Graph)
    (timeouts : String → Option TimeoutConfig) : List CascadeRisk :=
  g.Units.filterMap
    (fun unit =>
      if dependsOnNetwork (g.EdgesFrom unit.Name) then
        match timeouts unit.Name with
        | none => none
        | some tc =>
          if 0 < tc.TimeoutStartSec ∧ tc.TimeoutStartSec < 30000000000 then
            some
              { Unit := unit.Name, CriticalPath := 0
                OwnTimeout := tc.TimeoutStartSec
                Risk := networkRiskClass tc.TimeoutStartSec
                Recommendation :=
                  "Increase TimeoutStartSec to at least 60s for network-dependent services"
                File := tc.Source, Line := 0 }
          else none
      else none)

/-! ## Duration parser (timing package, ParseDuration and
parseSystemdTimeSpan)

Numbers are embedded exactly: a parsed decimal is kept as an integer
mantissa with a power-of-ten scale, and the Go conversion
`time.Duration(num * float64(multiplier))` is modelled as the exact
product truncated toward zero.  Go computes it in `float64`; the two
agree whenever the exact product needs at most 53 bits of mantissa (all
realistic durations, and every input any statement below quantifies
over); `float64` rounding and int64 overflow at astronomical magnitudes
are idealized away. -/

/-- A parsed decimal number: `(-1)^neg * mant * 10^exp`. -/
structure GoNum : Type where
  neg : Bool
  mant : ℕ
  exp : ℤ
deriving Repr, DecidableEq

/-- The nanosecond contribution of a parsed number times a multiplier
given in nanoseconds, truncated toward zero exactly as Go's
float64-to-Duration conversion truncates. -/
def GoNum.mulNs (n : GoNum) (mult : ℕ) : ℤ :=
  let mag : ℕ :=
    if 0 ≤ n.exp then n.mant * mult * 10 ^ n.exp.toNat
    else n.mant * mult / 10 ^ (-n.exp).toNat
  if n.neg then -(mag : ℤ) else (mag : ℤ)

/-- Result of Go's `strconv.ParseFloat`: a finite number kept exactly, or
one of the non-finite special values. -/
inductive GoFloat : Type
  | num (n : GoNum)
  | inf (neg : Bool)
  | nan
deriving Repr, DecidableEq

/-- Optional leading sign of a Go number. -/
def parseSign : List Char → Bool × List Char
  | '-' :: t => (true, t)
  | '+' :: t => (false, t)
  | l => (false, l)

/-- The optional fraction of a decimal mantissa: the digits after a
leading '.', and the rest. -/
def fracSplit : List Char → List Char × List Char
  | '.' :: t => (t.takeWhile Char.isDigit, t.dropWhile Char.isDigit)
  | r => ([], r)

/-- The decimal branch of `strconv.ParseFloat`: digits, an optional
fraction, an optional exponent, at least one digit overall, and nothing
left over. -/
def parseDecFloat (neg : Bool) (l : List Char) : Option GoFloat :=
  let ds := l.takeWhile Char.isDigit
  let r1 := l.dropWhile Char.isDigit
  let fr := fracSplit r1
  let fs := fr.1
  let r2 := fr.2
  if ds.length + fs.length = 0 then none
  else
    match r2 with
    | [] =>
      some (GoFloat.num ⟨neg, natOfDigits (ds ++ fs), -(fs.length : ℤ)⟩)
    | c :: t =>
      if c = 'e' ∨ c = 'E' then
        let pe := parseSign t
        let es := pe.2.takeWhile Char.isDigit
        let r3 := pe.2.dropWhile Char.isDigit
        if es = [] ∨ r3 ≠ [] then none
        else
          let ev : ℤ := if pe.1 then -(natOfDigits es : ℤ) else natOfDigits es
          some (GoFloat.num ⟨neg, natOfDigits (ds ++ fs), ev - fs.length⟩)
      else none

/-- Models Go's `strconv.ParseFloat` (an external standard-library
function): an optional sign followed by a case-insensitive "inf",
"infinity" or "nan", or a decimal mantissa with optional fraction and
exponent.  Hexadecimal floating-point literals and digit-separating
underscores, which ParseFloat also accepts, are not modelled (no checked
statement quantifies over inputs containing them), and the numeric value
is kept exact rather than rounded to the nearest float64. -/
def goParseFloat (s : String) : Option GoFloat :=
  match s.data with
  | [] => none
  | l =>
    let p := parseSign l
    if lowerL p.2 = "inf".data ∨ lowerL p.2 = "infinity".data then
      some (GoFloat.inf p.1)
    else if lowerL p.2 = "nan".data then some GoFloat.nan
    else parseDecFloat p.1 p.2

/-- Does the string (after its optional sign) spell one of ParseFloat's
non-finite special values?  Used to carve those inputs out of statements
about unparseable input. -/
def specialFloatForm (l : List Char) : Bool :=
  let p := parseSign l
  lowerL p.2 = "inf".data || lowerL p.2 = "infinity".data ||
    lowerL p.2 = "nan".data

/-- The `\s` character class of Go's regexp package (RE2's Perl class:
tab, newline, form feed, carriage return, space). -/
def isSpaceRe (c : Char) : Bool :=
  c = '\t' || c = '\n' || c = '\x0c' || c = '\r' || c = ' '

/-- The unit alternatives of the parseSystemdTimeSpan regular expression
`usec|us|msec|ms|seconds?|sec|s|minutes?|min|m|hours?|hr|h|days?|d|weeks?|w|months?|M|years?|y`,
expanded in the backtracking preference order Go's leftmost-first
submatch semantics tries them (an optional trailing `s?` is greedy, so
the plural form comes first). -/
def unitAlts : List (List Char) :=
  ["usec", "us", "msec", "ms", "seconds", "second", "sec", "s",
   "minutes", "minute", "min", "m", "hours", "hour", "hr", "h",
   "days", "day", "d", "weeks", "week", "w", "months", "month", "M",
   "years", "year", "y"].map String.data

/-- The optional unit group of the regex: the first alternative matching
at the current position wins; with no match the group is empty. -/
def matchUnit (l : List Char) : List Char × List Char :=
  match unitAlts.find? (fun u => startsWithL l u) with
  | some u => (u, l.drop u.length)
  | none => ([], l)

/-- The optional fraction `(?:\.\d+)?` of the regex number. -/
def scanFrac : List Char → List Char × List Char
  | '.' :: t =>
    let fs := t.takeWhile Char.isDigit
    if fs = [] then ([], '.' :: t)
    else ('.' :: fs, t.dropWhile Char.isDigit)
  | l => ([], l)

/-- Models `re.FindAllStringSubmatch` for the parseSystemdTimeSpan
pattern `(\d+(?:\.\d+)?)\s*(unit)?`: scan for a digit, take the maximal
digit run, an optional fraction, optional whitespace, and an optional
unit, then continue after the match.  Each step consumes at least one
character, so fuel `length + 1` completes the scan.  Returns the
(number, unit) submatch pairs. -/
def scanMatchesF : ℕ → List Char → List (List Char × List Char)
  | 0, _ => []
  | _ + 1, [] => []
  | fuel + 1, c :: cs =>
    if c.isDigit then
      let ds := (c :: cs).takeWhile Char.isDigit
      let r1 := (c :: cs).dropWhile Char.isDigit
      let f := scanFrac r1
      let r3 := f.2.dropWhile isSpaceRe
      let u := matchUnit r3
      (ds ++ f.1, u.1) :: scanMatchesF fuel u.2
    else scanMatchesF fuel cs

/-- The number submatch of the regex (`\d+(?:\.\d+)?`) as an exact
number; Go re-parses it with `strconv.ParseFloat`, which agrees on this
syntactic class. -/
def numFromMatch (numStr : List Char) : GoNum :=
  let ds := numStr.takeWhile Char.isDigit
  let rest := numStr.dropWhile Char.isDigit
  match rest with
  | '.' :: fs => ⟨false, natOfDigits (ds ++ fs), -(fs.length : ℤ)⟩
  | _ => ⟨false, natOfDigits ds, 0⟩

/-- The multiplier switch of parseSystemdTimeSpan (lines 205-229),
operating on the lowercased unit submatch; an empty unit means
seconds. -/
def unitMultNs (u : List Char) : ℕ :=
  let lu := lowerL u
  if lu = "usec".data ∨ lu = "us".data then 1000
  else if lu = "msec".data ∨ lu = "ms".data then 1000000
  else if lu = "seconds".data ∨ lu = "second".data ∨ lu = "sec".data ∨
      lu = "s".data ∨ lu = [] then 1000000000
  else if lu = "minutes".data ∨ lu = "minute".data ∨ lu = "min".data ∨
      lu = "m".data then 60000000000
  else if lu = "hours".data ∨ lu = "hour".data ∨ lu = "hr".data ∨
      lu = "h".data then 3600000000000
  else if lu = "days".data ∨ lu = "day".data ∨ lu = "d".data then
    86400000000000
  else if lu = "weeks".data ∨ lu = "week".data ∨ lu = "w".data then
    604800000000000
  else if lu = "months".data ∨ lu = "month".data then 2592000000000000
  else if lu = "years".data ∨ lu = "year".data ∨ lu = "y".data then
    31536000000000000
  else 1000000000

/-- Models Go's `time.ParseDuration` (an external standard-library
function) at its only call site: parseSystemdTimeSpan falls back to it
exactly when the regex found no match, i.e. when the input contains no
ASCII digit, and Go's duration grammar requires at least one digit, so
every such input is rejected. -/
def goTimeParseDuration (_ : String) : Option ℤ := none

/-- parseSystemdTimeSpan of the timing package (lines 170-235): sum of
the matched (number, unit) contributions, or the `time.ParseDuration`
fallback when the regex matches nothing. -/
def parseSystemdTimeSpan (s : String) : ℤ × Bool :=
  let l := trimSpaceL s.data
  if l = [] then (0, false)
  else
    let ms := scanMatchesF (l.length + 1) l
    if ms = [] then
      match goTimeParseDuration (String.mk l) with
      | some d => (d, false)
      | none => (0, true)
    else
      (ms.foldl
        (fun total m => total + (numFromMatch m.1).mulNs (unitMultNs m.2))
        0, false)

/-- The int64 value Go's float64-to-int conversion yields on amd64 when
the value is out of range or NaN (the conversion is
implementation-specific in the Go spec). -/
def floatToInt64Overflow : ℤ := -(2 ^ 63)

/-- ParseDuration of the timing package (lines 151-168): trim whitespace,
special-case "", "0" and "infinity" to 0, parse a bare decimal as
seconds, otherwise fall through to parseSystemdTimeSpan.  The result is
(nanoseconds, error flag). -/
def ParseDuration (s : String) : ℤ × Bool :=
  let t := String.mk (trimSpaceL s.data)
  if t = "" ∨ t = "infinity" ∨ t = "0" then (0, false)
  else
    match goParseFloat t with
    | some (GoFloat.num n) => (n.mulNs 1000000000, false)
    | some _ => (floatToInt64Overflow, false)
    | none => parseSystemdTimeSpan t

/-- Trailing words after a digit run that the time-span regex treats as
a single optional-unit group: nonempty, the leading character is not a
digit, not regex whitespace, not '.', 'e' or 'E', no character is Go
whitespace, and whatever follows the matched unit contains no further
digit. -/
def wordOK (w : List Char) : Bool :=
  match w with
  | [] => false
  | c :: _ =>
    !c.isDigit && !isSpaceRe c && !(c == '.') && !(c == 'e') && !(c == 'E')
      && w.all (fun d => !isSpaceGo d)
      && (matchUnit w).2.all (fun d => !d.isDigit)

/-- The amended unit table: the unit words the parser accepts, with the
nanosecond multiplier the code assigns them.  Matching is case-sensitive;
the `m` alternative shadows `month`/`months` (so those words contribute
minutes), and the `M` alternative lowercases to minutes as well.  The
theorem for C3 checks every row against the code's `matchUnit` and
`unitMultNs`. -/
def unitTable : List (List Char × ℕ) :=
  ([("usec", 1000), ("us", 1000), ("msec", 1000000), ("ms", 1000000),
    ("seconds", 1000000000), ("second", 1000000000), ("sec", 1000000000),
    ("s", 1000000000),
    ("minutes", 60000000000), ("minute", 60000000000),
    ("min", 60000000000), ("m", 60000000000), ("M", 60000000000),
    ("months", 60000000000), ("month", 60000000000),
    ("hours", 3600000000000), ("hour", 3600000000000),
    ("hr", 3600000000000), ("h", 3600000000000),
    ("days", 86400000000000), ("day", 86400000000000),
    ("d", 86400000000000),
    ("weeks", 604800000000000), ("week", 604800000000000),
    ("w", 604800000000000),
    ("years", 31536000000000000), ("year", 31536000000000000),
    ("y", 31536000000000000)] : List (String × ℕ)).map
    (fun p => (p.1.data, p.2))

/-! ## Mount unit names (mount validation source file) -/

/-- Split on '/' separators.  Always returns at least one (possibly
empty) segment; separators delimit segments. -/
def splitSlash : List Char → List (List Char)
  | [] => [[]]
  | c :: cs =>
    match splitSlash cs with
    | [] => [[c]]
    | s :: ss => if c = '/' then [] :: s :: ss else (c :: s) :: ss

/-- Join segments with '/' separators (inverse of `splitSlash`). -/
def joinSlash : List (List Char) → List Char
  | [] => []
  | [s] => s
  | s :: ss => s ++ '/' :: joinSlash ss

/-- The `..` resolution step of path cleaning: a stack-based fold that
pops a previous segment for each `..` (dropping `..` at the root). -/
def resolveDots (rooted : Bool) (segs : List (List Char)) :
    List (List Char) :=
  segs.foldl
    (fun acc s =>
      if s = ['.', '.'] then
        if acc ≠ [] ∧ acc.getLast? ≠ some ['.', '.'] then acc.dropLast
        else if rooted then acc else acc ++ [s]
      else acc ++ [s])
    []

/-- Models Go's `path/filepath.Clean` (an external standard-library
function) by its documented rules: collapse repeated separators, drop
`.` segments, resolve `..` segments (eliminating those at the root), drop
trailing separators, and return "." for an empty non-rooted result and
"/" for an empty rooted one. -/
def cleanPathL (p : List Char) : List Char :=
  match p with
  | [] => ['.']
  | c :: _ =>
    let rooted := c = '/'
    let segs :=
      (splitSlash p).filter (fun s => s ≠ [] ∧ s ≠ ['.'])
    let out := resolveDots rooted segs
    if rooted then '/' :: joinSlash out
    else if out = [] then ['.'] else joinSlash out

/-- The character class kept verbatim by escapeMountUnitName (mount
validation source, lines 119-132): ASCII letters, digits, '-' and '_'. -/
def mountNameKeep (c : Char) : Bool :=
  ('a' ≤ c ∧ c ≤ 'z') || ('A' ≤ c ∧ c ≤ 'Z') || ('0' ≤ c ∧ c ≤ '9') ||
    c = '-' || c = '_'

/-- One lowercase hexadecimal digit. -/
def hexDigitL (n : ℕ) : Char :=
  if n < 10 then Char.ofNat ('0'.toNat + n)
  else Char.ofNat ('a'.toNat + (n - 10))

/-- The `\xHH` escape written by escapeMountUnitName for a character
outside the kept class (Go formats `byte(c)`, the low byte of the rune,
with `%02x`). -/
def hexEscapeL (c : Char) : List Char :=
  ['\\', 'x', hexDigitL (c.toNat % 256 / 16), hexDigitL (c.toNat % 16)]

/-- escapeMountUnitName of the mount validation source (lines 119-132). -/
def escapeMountUnitName (s : String) : String :=
  String.mk
    (s.data.flatMap (fun c => if mountNameKeep c then [c] else hexEscapeL c))

/-- pathToMountUnitName of the mount validation source (lines 97-117):
"/" maps to "-.mount"; otherwise clean the path, trim the leading and
trailing "/", replace "/" with "-", escape, and append ".mount". -/
def pathToMountUnitName (path : String) : String :=
  if path = "/" then "-.mount"
  else
    let p1 := cleanPathL path.data
    let p2 := trimPreL p1 ['/']
    let p3 := trimSufL p2 ['/']
    let name := p3.map (fun c => if c = '/' then '-' else c)
    String.mk ((escapeMountUnitName (String.mk name)).data ++ ".mount".data)

/-- Modelled from the spec: the inverse mapping the round-trip property
is stated with (spec section 8, "Round-trip"): strip the ".mount" suffix,
replace each "-" with "/", and restore the leading "/". -/
def mountNameToPath (name : String) : String :=
  String.mk
    ('/' ::
      (trimSufL name.data ".mount".data).map
        (fun c => if c = '-' then '/' else c))

/-- The claim's segment character class `[A-Za-z0-9_-]`. -/
def segChar (c : Char) : Bool :=
  ('a' ≤ c ∧ c ≤ 'z') || ('A' ≤ c ∧ c ≤ 'Z') || ('0' ≤ c ∧ c ≤ '9') ||
    c = '_' || c = '-'

/-- The claim's path class: an absolute path each of whose
slash-separated segments is a nonempty word over `segChar`. -/
def goodPathB (p : List Char) : Bool :=
  match p with
  | [] => false
  | c :: rest =>
    c = '/' && (splitSlash rest).all (fun s => !s.isEmpty && s.all segChar)

/-- The amended segment character class `[A-Za-z0-9_]`: the hyphen is
removed, because the escape step keeps `-` verbatim while the path step
also writes `-` for `/`, making the two collide. -/
def amendedSegChar (c : Char) : Bool :=
  ('a' ≤ c ∧ c ≤ 'z') || ('A' ≤ c ∧ c ≤ 'Z') || ('0' ≤ c ∧ c ≤ '9') ||
    c = '_'

/-- The amended path class: absolute, nonempty hyphen-free segments. -/
def goodPathAm (p : List Char) : Bool :=
  match p with
  | [] => false
  | c :: rest =>
    c = '/' &&
      (splitSlash rest).all (fun s => !s.isEmpty && s.all amendedSegChar)

/-! ## Issues and the analyzer's issue ordering
(pkg/types/types.go, internal/analyzer/analyzer.go) -/

/-- Category of pkg/types/types.go. -/
inductive Category : Type
  | security
  | performance
  | reliability
  | bestpractice
deriving Repr, DecidableEq

/-- Issue of pkg/types/types.go. -/
structure Issue : Type where
  RuleID : String
  RuleName : String
  Severity : Severity
  Category : Category
  Tags : List String
  Unit : String
  File : String
  Line : Option ℤ
  Description : String
  Suggestion : String
  References : List String
deriving Repr, DecidableEq

/-- The sort key of the `sort.Slice` over issues in Analyzer.Scan and
Analyzer.CheckFiles (internal/analyzer/analyzer.go, lines 100-105 and
173-178): severity descending (the Go `less` compares the severity enum
with `>`), then unit name ascending. -/
def issueKey (i : Issue) : ℕ × List Char :=
  (4 - i.Severity.toNat, i.Unit.data)

/-- The sort relation of the analyzer's issue ordering (the negation of
its Go `less` function). -/
def issueLe : Issue → Issue → Prop := keyLe (cmpProd cmpNat cmpL) issueKey

instance : DecidableRel issueLe := by
  unfold issueLe
  infer_instance

/-- The issue-collection-and-sort step shared by Analyzer.Scan and
Analyzer.CheckFiles: run the rules on every unit, concatenate, and sort
by descending severity then ascending unit name.  The rule engine is
abstracted as the function `runRules` (the claim checked below is about
the ordering, which holds for any rule output). -/
def scanIssues (units : List UnitFile) (runRules : UnitFile → List Issue) :
    List Issue :=
  List.insertionSort issueLe (units.flatMap runRules)

/-! ## Type-specific validators (internal/validation) -/

/-- The FileSystem interface of the validation package (its filesystem
and identity probe), embedded as a record of predicates. -/
structure FileSystem : Type where
  Exists : String → Bool
  IsExecutable : String → Bool
  IsDirectory : String → Bool
  UserExists : String → Bool
  GroupExists : String → Bool

/-- ASCII `strings.ToLower` on strings. -/
def lowerStr (s : String) : String := String.mk (lowerL s.data)

/-- Go `strings.HasPrefix` on strings. -/
def hasPre (s p : String) : Bool := startsWithL s.data p.data

/-- MountValidation of the mount validation source (lines 11-25). -/
structure MountValidation : Type where
  Unit : String
  NameMismatch : Bool
  ExpectedName : String
  WhatMissing : Bool
  WhereMissing : Bool
  WhatValue : String
  WhereValue : String
  DeviceNotFound : Bool
  InvalidFSType : Bool
  FSType : String
  Issues : List String
  Valid : Bool
deriving Repr, DecidableEq

/-- The zero-valued MountValidation Go starts from, with `Unit` and
`Valid` set (mount validation source, lines 29-32). -/
def emptyMountValidation (name : String) : MountValidation :=
  { Unit := name, NameMismatch := false, ExpectedName := ""
    WhatMissing := false, WhereMissing := false, WhatValue := ""
    WhereValue := "", DeviceNotFound := false, InvalidFSType := false
    FSType := "", Issues := [], Valid := true }

/-- isNetworkFS of the mount validation source (lines 134-150). -/
def isNetworkFS (fsType : String) : Bool :=
  ["nfs", "nfs4", "cifs", "smb", "smbfs", "sshfs", "fuse.sshfs",
    "glusterfs", "ceph", "lustre", "9p"].any
    (fun t => lowerStr fsType = t)

/-- isSpecialDevice of the mount validation source (lines 152-189). -/
def isSpecialDevice (what : String) : Bool :=
  hasPre what "UUID=" || hasPre what "LABEL=" || hasPre what "PARTUUID=" ||
    hasPre what "PARTLABEL=" ||
    (["tmpfs", "proc", "sysfs", "devtmpfs", "devpts", "cgroup", "cgroup2",
      "hugetlbfs", "mqueue", "securityfs", "debugfs", "tracefs",
      "configfs", "fusectl", "pstore", "efivarfs", "bpf"].any
      (fun p => what = p || hasPre what (p ++ ":")))

/-- isValidFSType of the mount validation source (lines 191-226). -/
def isValidFSType (fsType : String) : Bool :=
  hasPre (lowerStr fsType) "fuse." ||
    (["ext2", "ext3", "ext4", "xfs", "btrfs", "f2fs", "jfs", "reiserfs",
      "vfat", "fat", "msdos", "ntfs", "ntfs-3g", "exfat", "nfs", "nfs4",
      "cifs", "smb", "sshfs", "fuse.sshfs", "glusterfs", "tmpfs", "ramfs",
      "devtmpfs", "proc", "sysfs", "devpts", "cgroup", "cgroup2",
      "securityfs", "debugfs", "tracefs", "hugetlbfs", "mqueue",
      "configfs", "fusectl", "pstore", "efivarfs", "bpf", "iso9660",
      "udf", "squashfs", "overlay", "overlayfs", "fuse", "fuseblk",
      "autofs", "nfsd", "swap"].any (fun t => lowerStr fsType = t))

/-- ValidateMount of the mount validation source (lines 27-95). -/
def ValidateMount (unit : UnitFile) (fs : FileSystem) : MountValidation :=
  let result := emptyMountValidation unit.Name
  if unit.type_ ≠ "mount" then result
  else
    match lookupA unit.Sections "Mount" with
    | none =>
      { result with
          Valid := false
          Issues := ["Mount unit has no [Mount] section"] }
    | some mountSection =>
      let whatValue := getDirectiveValue (some mountSection) "What"
      let whereValue := getDirectiveValue (some mountSection) "Where"
      let fsType := getDirectiveValue (some mountSection) "Type"
      let result :=
        { result with
            WhatValue := whatValue
            WhereValue := whereValue
            FSType := fsType }
      let result :=
        if whatValue = "" then
          { result with
              WhatMissing := true
              Valid := false
              Issues :=
                result.Issues ++
                  ["Mount unit missing required What= directive"] }
        else result
      let result :=
        if whereValue = "" then
          { result with
              WhereMissing := true
              Valid := false
              Issues :=
                result.Issues ++
                  ["Mount unit missing required Where= directive"] }
        else result
      let result :=
        if whereValue ≠ "" then
          let expectedName := pathToMountUnitName whereValue
          let result := { result with ExpectedName := expectedName }
          if unit.Name ≠ expectedName then
            { result with
                NameMismatch := true
                Valid := false
                Issues :=
                  result.Issues ++
                    ["Unit name doesn't match Where= path. Expected: " ++
                      expectedName] }
          else result
        else result
      let result :=
        if whatValue != "" && !result.WhatMissing &&
            !(isNetworkFS fsType || isSpecialDevice whatValue) &&
            !fs.Exists whatValue then
          { result with DeviceNotFound := true }
        else result
      if fsType != "" && !isValidFSType fsType then
        { result with
            InvalidFSType := true
            Issues :=
              result.Issues ++ ["Unknown filesystem type: " ++ fsType] }
      else result

/-- MissingExec of internal/validation/directive.go (lines 325-331). -/
structure MissingExec : Type where
  Directive : String
  Path : String
  Optional : Bool
  Line : ℤ
deriving Repr, DecidableEq

/-- Contradiction of internal/validation/directive.go (lines 333-339). -/
structure Contradiction : Type where
  Setting : String
  ConflictsWith : String
  Severity : String
  Description : String
deriving Repr, DecidableEq

/-- ServiceValidation of internal/validation/directive.go (lines
312-323). -/
structure ServiceValidation : Type where
  Unit : String
  ExecStartMissing : Bool
  ExecStartNotFound : List MissingExec
  ExecStartNotExec : List MissingExec
  UserNotFound : String
  GroupNotFound : String
  ContradictorySandbox : List Contradiction
  TypeIssues : List String
  Valid : Bool
deriving Repr, DecidableEq

/-- The zero-valued ServiceValidation Go starts from, with `Unit` and
`Valid` set (internal/validation/directive.go, lines 343-346). -/
def emptyServiceValidation (name : String) : ServiceValidation :=
  { Unit := name, ExecStartMissing := false, ExecStartNotFound := []
    ExecStartNotExec := [], UserNotFound := "", GroupNotFound := ""
    ContradictorySandbox := [], TypeIssues := [], Valid := true }

/-- The prefix-stripping loop of validateExecPath (directive.go, lines
431-442): consume the `-@!|+:` command prefix characters, remembering
whether `-` (optional) was among them. -/
def stripExecMarks : List Char → Bool → List Char × Bool
  | [], optional => ([], optional)
  | c :: cs, optional =>
    if c = '-' then stripExecMarks cs true
    else if c = '@' ∨ c = '!' ∨ c = '|' ∨ c = '+' ∨ c = ':' then
      stripExecMarks cs optional
    else (c :: cs, optional)

/-- validateExecPath of internal/validation/directive.go (lines 412-485):
returns the (missing, notExecutable) records for one Exec* value. -/
def validateExecPath (value directive : String) (line : ℤ)
    (fs : FileSystem) : List MissingExec × List MissingExec :=
  if value = "" then ([], [])
  else
    let s := stripExecMarks value.data false
    let cmd := s.1
    let optional := s.2
    match fieldsL cmd with
    | [] => ([], [])
    | p :: _ =>
      let execPath := String.mk p
      if containsCharL p '%' then ([], [])
      else if ¬fs.Exists execPath then
        ([{ Directive := directive, Path := execPath, Optional := optional
            Line := line }], [])
      else if ¬fs.IsExecutable execPath then
        ([], [{ Directive := directive, Path := execPath
                Optional := optional, Line := line }])
      else ([], [])

/-- isNumericUser of internal/validation/directive.go (lines 587-591):
`fmt.Sscanf` with `%d` succeeds when the string starts with an optionally
signed decimal integer. -/
def isNumericUser (user : String) : Bool :=
  let p := parseSign user.data
  !(p.2.takeWhile Char.isDigit).isEmpty

/-- The Exec* values scanned by checkContradictorySandboxing (directive.go,
lines 500-508): all ExecStart, ExecStartPre and ExecReload values. -/
def sandboxExecPaths (serviceSection : Section) : List String :=
  ["ExecStart", "ExecStartPre", "ExecReload"].flatMap
    (fun d =>
      match lookupA serviceSection.Directives d with
      | some ds => ds.map (fun x => x.Value)
      | none => [])

/-- The network binaries checked against PrivateNetwork=
(directive.go, line 512). -/
def networkBinaries : List String :=
  ["curl", "wget", "ping", "ssh", "nc", "netcat", "socat"]

/-- checkContradictorySandboxing of internal/validation/directive.go
(lines 487-585). -/
def checkContradictorySandboxing (serviceSection : Section) :
    List Contradiction :=
  let gdv := fun k => getDirectiveValue (some serviceSection) k
  let privateNetwork :=
    gdv "PrivateNetwork" = "yes" ∨ gdv "PrivateNetwork" = "true"
  let privateUsers :=
    gdv "PrivateUsers" = "yes" ∨ gdv "PrivateUsers" = "true"
  let protectSystem := gdv "ProtectSystem"
  let readOnlyPaths :=
    match lookupA serviceSection.Directives "ReadOnlyPaths" with
    | some ds => ds
    | none => []
  let inaccessiblePaths :=
    match lookupA serviceSection.Directives "InaccessiblePaths" with
    | some ds => ds
    | none => []
  let execPaths := sandboxExecPaths serviceSection
  let c1 :=
    if privateNetwork then
      execPaths.flatMap
        (fun exec =>
          networkBinaries.filterMap
            (fun bin =>
              if containsL exec.data ("/" ++ bin).data ||
                  hasPre exec (bin ++ " ") then
                some
                  { Setting := "PrivateNetwork=yes"
                    ConflictsWith := "ExecStart uses " ++ bin
                    Severity := "high"
                    Description :=
                      "PrivateNetwork=yes but ExecStart uses " ++ bin ++
                        " which requires network access" }
              else none))
    else []
  let c2 :=
    if privateUsers then
      let user := gdv "User"
      if user ≠ "" ∧ user ≠ "root" ∧ user ≠ "nobody" ∧
          ¬isNumericUser user then
        [{ Setting := "PrivateUsers=yes"
           ConflictsWith := "User=" ++ user
           Severity := "medium"
           Description :=
             "PrivateUsers=yes may cause User= lookup to fail if user doesn't exist in private namespace" }]
      else []
    else []
  let c3 :=
    if protectSystem = "strict" ∨ protectSystem = "full" then
      execPaths.filterMap
        (fun exec =>
          if containsL exec.data ">/".data ||
              containsL exec.data ">> /".data then
            some
              { Setting := "ProtectSystem=" ++ protectSystem
                ConflictsWith := "Command appears to write to filesystem"
                Severity := "medium"
                Description :=
                  "ProtectSystem may prevent write operations in ExecStart" }
          else none)
    else []
  let workDir := gdv "WorkingDirectory"
  let c4 :=
    if workDir ≠ "" then
      (readOnlyPaths.filterMap
        (fun d =>
          if hasPre workDir d.Value then
            some
              { Setting := "ReadOnlyPaths=" ++ d.Value
                ConflictsWith := "WorkingDirectory=" ++ workDir
                Severity := "medium"
                Description :=
                  "WorkingDirectory is under a ReadOnlyPaths path" }
          else none)) ++
        (inaccessiblePaths.filterMap
          (fun d =>
            if hasPre workDir d.Value then
              some
                { Setting := "InaccessiblePaths=" ++ d.Value
                  ConflictsWith := "WorkingDirectory=" ++ workDir
                  Severity := "high"
                  Description :=
                    "WorkingDirectory is under an InaccessiblePaths path" }
            else none))
    else []
  c1 ++ c2 ++ c3 ++ c4

/-- validateServiceType of internal/validation/directive.go (lines
593-649). -/
def validateServiceType (serviceSection : Section) : List String :=
  let serviceType0 := getDirectiveValue (some serviceSection) "Type"
  let serviceType := if serviceType0 = "" then "simple" else serviceType0
  let execStart :=
    match lookupA serviceSection.Directives "ExecStart" with
    | some ds => ds
    | none => []
  let busName := getDirectiveValue (some serviceSection) "BusName"
  let pidFile := getDirectiveValue (some serviceSection) "PIDFile"
  if serviceType = "simple" then
    if execStart.length = 0 then ["Type=simple but no ExecStart= defined"]
    else []
  else if serviceType = "exec" then
    if execStart.length = 0 then ["Type=exec but no ExecStart= defined"]
    else []
  else if serviceType = "forking" then
    if pidFile = "" then
      ["Type=forking without PIDFile= may cause systemd to lose track of the process"]
    else []
  else if serviceType = "oneshot" then []
  else if serviceType = "dbus" then
    if busName = "" then ["Type=dbus requires BusName= to be set"] else []
  else if serviceType = "notify" then []
  else if serviceType = "idle" then []
  else ["Unknown Type=" ++ serviceType]

/-- The Exec* directives validated by ValidateService (directive.go,
lines 369-372). -/
def serviceExecDirectives : List String :=
  ["ExecStart", "ExecStartPre", "ExecStartPost", "ExecStop",
   "ExecStopPost", "ExecReload"]

/-- ValidateService of internal/validation/directive.go (lines 341-410). -/
def ValidateService (unit : UnitFile) (fs : FileSystem) :
    ServiceValidation :=
  let result := emptyServiceValidation unit.Name
  if unit.type_ ≠ "service" then result
  else
    match lookupA unit.Sections "Service" with
    | none => { result with Valid := false }
    | some serviceSection =>
      let execStartDirs :=
        match lookupA serviceSection.Directives "ExecStart" with
        | some ds => ds
        | none => []
      let serviceType := getDirectiveValue (some serviceSection) "Type"
      let result :=
        if execStartDirs.length = 0 ∧ serviceType ≠ "oneshot" then
          { result with ExecStartMissing := true, Valid := false }
        else result
      let execResults :=
        serviceExecDirectives.flatMap
          (fun directive =>
            match lookupA serviceSection.Directives directive with
            | some ds =>
              ds.map (fun d => validateExecPath d.Value directive d.Line fs)
            | none => [])
      let result :=
        { result with
            ExecStartNotFound := execResults.flatMap Prod.fst
            ExecStartNotExec := execResults.flatMap Prod.snd }
      let userVal := getDirectiveValue (some serviceSection) "User"
      let result :=
        if userVal ≠ "" ∧ ¬fs.UserExists userVal then
          { result with UserNotFound := userVal, Valid := false }
        else result
      let groupVal := getDirectiveValue (some serviceSection) "Group"
      let result :=
        if groupVal ≠ "" ∧ ¬fs.GroupExists groupVal then
          { result with GroupNotFound := groupVal, Valid := false }
        else result
      let result :=
        { result with
            ContradictorySandbox :=
              checkContradictorySandboxing serviceSection
            TypeIssues := validateServiceType serviceSection }
      if !result.ExecStartNotFound.isEmpty ||
          !result.ContradictorySandbox.isEmpty ||
          !result.TypeIssues.isEmpty then
        { result with Valid := false }
      else result

/-- Decimal rendering of a natural number (for the embedded
`fmt.Sprintf` messages). -/
def natToStrAux : ℕ → ℕ → List Char
  | 0, _ => []
  | fuel + 1, n =>
    if n < 10 then [Char.ofNat ('0'.toNat + n)]
    else natToStrAux fuel (n / 10) ++ [Char.ofNat ('0'.toNat + n % 10)]

/-- Decimal rendering of an integer. -/
def intToStr (i : ℤ) : String :=
  if i < 0 then String.mk ('-' :: natToStrAux (i.natAbs + 1) i.natAbs)
  else String.mk (natToStrAux (i.natAbs + 1) i.natAbs)

/-- Models Go's `strconv.Atoi` (an external standard-library function):
an optionally signed, all-digits decimal integer. -/
def goAtoi (s : String) : Option ℤ :=
  let p := parseSign s.data
  let ds := p.2.takeWhile Char.isDigit
  let rest := p.2.dropWhile Char.isDigit
  if ds = [] ∨ rest ≠ [] then none
  else if p.1 then some (-(natOfDigits ds : ℤ)) else some (natOfDigits ds)

/-- The two standard-library network helpers `net.SplitHostPort` and
`net.ParseIP` that validateNetworkListen calls, abstracted as a record:
the checked statement about ValidateSocket holds for every behavior of
these helpers.  `SplitHostPort` returns (host, port) or an error;
`ParseIP` reports whether the string is an IP address. -/
structure NetFns : Type where
  SplitHostPort : String → Option (String × String)
  ParseIP : String → Bool

/-- InvalidListen of internal/validation/socket.go (lines 24-30). -/
structure InvalidListen : Type where
  Directive : String
  Value : String
  Reason : String
  Line : ℤ
deriving Repr, DecidableEq

/-- PortConflict of internal/validation/socket.go (lines 32-36). -/
structure PortConflict : Type where
  Port : String
  OtherSocket : String
deriving Repr, DecidableEq

/-- SocketValidation of internal/validation/socket.go (lines 13-22). -/
structure SocketValidation : Type where
  Unit : String
  MissingService : Bool
  ServiceName : String
  InvalidListen : List InvalidListen
  PortConflicts : List PortConflict
  Issues : List String
  Valid : Bool
deriving Repr, DecidableEq

/-- The zero-valued SocketValidation Go starts from, with `Unit` and
`Valid` set (socket.go, lines 40-43). -/
def emptySocketValidation (name : String) : SocketValidation :=
  { Unit := name, MissingService := false, ServiceName := ""
    InvalidListen := [], PortConflicts := [], Issues := [], Valid := true }

/-- validateNetworkListen of internal/validation/socket.go (lines
142-214). -/
def validateNetworkListen (net : NetFns) (directive value : String)
    (line : ℤ) : Option InvalidListen :=
  if hasPre value "/" || hasPre value "@" then
    if hasPre value "/" ∧ 108 < value.data.length then
      some
        { Directive := directive, Value := value
          Reason :=
            "Unix socket path exceeds maximum length (108 characters)"
          Line := line }
    else none
  else
    match goAtoi value with
    | some port =>
      if port < 1 ∨ 65535 < port then
        some
          { Directive := directive, Value := value
            Reason :=
              "Port " ++ intToStr port ++
                " is out of valid range (1-65535)"
            Line := line }
      else none
    | none =>
      match net.SplitHostPort value with
      | none =>
        if net.ParseIP value then
          some
            { Directive := directive, Value := value
              Reason := "IP address without port", Line := line }
        else none
      | some hp =>
        match goAtoi hp.2 with
        | none => none
        | some port =>
          if port < 1 ∨ 65535 < port then
            some
              { Directive := directive, Value := value
                Reason :=
                  "Port " ++ intToStr port ++
                    " is out of valid range (1-65535)"
                Line := line }
          else none

/-- validatePathListen of internal/validation/socket.go (lines 216-229). -/
def validatePathListen (directive value : String) (line : ℤ) :
    Option InvalidListen :=
  if ¬hasPre value "/" then
    some
      { Directive := directive, Value := value
        Reason := "Must be an absolute path", Line := line }
  else none

/-- The netlink family allow-list of validateNetlinkListen (socket.go,
lines 235-255). -/
def validNetlinkFamilies : List String :=
  ["route", "firewall", "inet-diag", "nflog", "xfrm", "selinux", "iscsi",
   "audit", "fib-lookup", "connector", "netfilter", "ip6-firewall",
   "dnrtmsg", "kobject-uevent", "generic", "scsitransport", "ecryptfs",
   "rdma", "crypto"]

/-- validateNetlinkListen of internal/validation/socket.go (lines
231-281). -/
def validateNetlinkListen (directive value : String) (line : ℤ) :
    Option InvalidListen :=
  match fieldsL value.data with
  | [] =>
    some
      { Directive := directive, Value := value
        Reason := "Empty netlink family", Line := line }
  | f :: _ =>
    let family := lowerStr (String.mk f)
    if validNetlinkFamilies.any (fun v => family = v) then none
    else
      match goAtoi family with
      | some _ => none
      | none =>
        some
          { Directive := directive, Value := value
            Reason := "Unknown netlink family: " ++ family, Line := line }

/-- validateListenValue of internal/validation/socket.go (lines
119-140). -/
def validateListenValue (net : NetFns) (directive value : String)
    (line : ℤ) : Option InvalidListen :=
  if value = "" then
    some
      { Directive := directive, Value := value, Reason := "Empty value"
        Line := line }
  else if directive = "ListenStream" ∨ directive = "ListenDatagram" ∨
      directive = "ListenSequentialPacket" then
    validateNetworkListen net directive value line
  else if directive = "ListenFIFO" ∨ directive = "ListenSpecial" then
    validatePathListen directive value line
  else if directive = "ListenNetlink" then
    validateNetlinkListen directive value line
  else none

/-- getExpectedServiceName of internal/validation/socket.go (lines
108-117). -/
def getExpectedServiceName (unit : UnitFile) (socketSection : Section) :
    String :=
  let service := getDirectiveValue (some socketSection) "Service"
  if service ≠ "" then service
  else String.mk (trimSufL unit.Name.data ".socket".data) ++ ".service"

/-- The listen directives checked by ValidateSocket (socket.go, lines
67-76). -/
def listenDirectives : List String :=
  ["ListenStream", "ListenDatagram", "ListenSequentialPacket",
   "ListenFIFO", "ListenSpecial", "ListenNetlink", "ListenMessageQueue",
   "ListenUSBFunction"]

/-- ValidateSocket of internal/validation/socket.go (lines 38-106). -/
def ValidateSocket (unit : UnitFile) (allUnits : List (String × UnitFile))
    (net : NetFns) : SocketValidation :=
  let result := emptySocketValidation unit.Name
  if unit.type_ ≠ "socket" then result
  else
    match lookupA unit.Sections "Socket" with
    | none =>
      { result with
          Valid := false
          Issues := ["Socket unit has no [Socket] section"] }
    | some socketSection =>
      let serviceName := getExpectedServiceName unit socketSection
      let result := { result with ServiceName := serviceName }
      let result :=
        if lookupA allUnits serviceName = none then
          { result with MissingService := true, Valid := false }
        else result
      let invalid :=
        listenDirectives.flatMap
          (fun directive =>
            match lookupA socketSection.Directives directive with
            | some ds =>
              ds.filterMap
                (fun d => validateListenValue net directive d.Value d.Line)
            | none => [])
      let result := { result with InvalidListen := invalid }
      let hasListen :=
        listenDirectives.any
          (fun directive =>
            (lookupA socketSection.Directives directive).isSome)
      let result :=
        if ¬hasListen then
          { result with
              Issues :=
                result.Issues ++ ["Socket unit has no Listen* directives"]
              Valid := false }
        else result
      if !result.InvalidListen.isEmpty || !result.Issues.isEmpty then
        { result with Valid := false }
      else result

/-! ## Concrete fixtures used by witnesses -/

/-- A minimal parsed service unit used by witnesses. -/
def fixServiceUnit : UnitFile :=
  { Name := "app.service", Path := "/etc/systemd/system/app.service"
    type_ := "service"
    Sections :=
      [("Unit",
        { Name := "Unit"
          Directives :=
            [("JobTimeoutSec", [{ Key := "JobTimeoutSec", Value := "90"
                                  Line := 3 }]),
             ("Wants", [{ Key := "Wants", Value := "dbus.service"
                          Line := 4 }])] }),
       ("Service",
        { Name := "Service"
          Directives :=
            [("ExecStart",
              [{ Key := "ExecStart", Value := "/usr/bin/app", Line := 7 },
               { Key := "ExecStart", Value := "/usr/bin/app2"
                 Line := 8 }])] })]
    Raw := "" }

/-- A minimal parsed timer unit used by witnesses (fed to validators of a
different unit type). -/
def fixTimerUnit : UnitFile :=
  { Name := "app.timer", Path := "/etc/systemd/system/app.timer"
    type_ := "timer"
    Sections :=
      [("Timer",
        { Name := "Timer"
          Directives :=
            [("OnCalendar", [{ Key := "OnCalendar", Value := "daily"
                               Line := 3 }])] })]
    Raw := "" }

/-- A filesystem probe on which everything exists (witnesses only). -/
def fixFS : FileSystem :=
  { Exists := fun _ => true, IsExecutable := fun _ => true
    IsDirectory := fun _ => true, UserExists := fun _ => true
    GroupExists := fun _ => true }

/-- Network helpers that always fail to parse (witnesses only; the
theorems quantify over all behaviors). -/
def fixNet : NetFns :=
  { SplitHostPort := fun _ => none, ParseIP := fun _ => false }

/-! ## C9 — directive accessors -/

/-- C9: for every unit, section name and key, `GetDirective` returns the
value of the first element of `GetDirectives` when that list is
non-empty and the empty string otherwise; and when the section or the key
is absent, the accessors return the empty string, the empty list and
`false` rather than an error (they are total functions). -/
theorem C9_directive_accessors (u : UnitFile) (s k : String) :
    (u.GetDirective s k =
      (match u.GetDirectives s k with
        | [] => ""
        | d :: _ => d.Value)) ∧
    (lookupA u.Sections s = none →
      u.GetDirective s k = "" ∧ u.GetDirectives s k = [] ∧
        u.HasDirective s k = false) ∧
    (∀ sec, lookupA u.Sections s = some sec →
      lookupA sec.Directives k = none →
      u.GetDirective s k = "" ∧ u.GetDirectives s k = [] ∧
        u.HasDirective s k = false) := by
  refine ⟨?_, ?_, ?_⟩
  · unfold UnitFile.GetDirective UnitFile.GetDirectives
    rcases lookupA u.Sections s with _ | sec
    · rfl
    · rcases hd : lookupA sec.Directives k with _ | ds
      · simp [hd]
      · rcases ds with _ | ⟨d, ds⟩ <;> simp [hd]
  · intro h
    unfold UnitFile.GetDirective UnitFile.GetDirectives
      UnitFile.HasDirective
    rw [h]
    exact ⟨rfl, rfl, rfl⟩
  · intro sec hsec hkey
    unfold UnitFile.GetDirective UnitFile.GetDirectives
      UnitFile.HasDirective
    rw [hsec]
    simp [hkey]

/-- Witness for C9 at a concrete unit: the first of two ExecStart values,
and the absent-section behavior. -/
theorem C9_directive_accessors_witness :
    fixServiceUnit.GetDirective "Socket" "ListenStream" = "" ∧
      fixServiceUnit.GetDirectives "Socket" "ListenStream" = [] ∧
      fixServiceUnit.HasDirective "Socket" "ListenStream" = false :=
  (C9_directive_accessors fixServiceUnit "Socket" "ListenStream").2.1
    (by decide)

/-! ## C10 — validators on units of a different type -/

/-- C10: a unit whose type does not match the validator's unit type is
returned as valid with no issue or failure field set, regardless of the
unit's contents: the service, mount and socket validators all return
their zero-valued record (with `Valid = true`) for such units. -/
theorem C10_type_mismatch_validators (u : UnitFile) (fs : FileSystem)
    (allUnits : List (String × UnitFile)) (net : NetFns) :
    (u.type_ ≠ "service" →
      ValidateService u fs = emptyServiceValidation u.Name ∧
        (ValidateService u fs).Valid = true ∧
        (ValidateService u fs).ExecStartNotFound = [] ∧
        (ValidateService u fs).TypeIssues = []) ∧
    (u.type_ ≠ "mount" →
      ValidateMount u fs = emptyMountValidation u.Name ∧
        (ValidateMount u fs).Valid = true ∧
        (ValidateMount u fs).Issues = []) ∧
    (u.type_ ≠ "socket" →
      ValidateSocket u allUnits net = emptySocketValidation u.Name ∧
        (ValidateSocket u allUnits net).Valid = true ∧
        (ValidateSocket u allUnits net).InvalidListen = [] ∧
        (ValidateSocket u allUnits net).Issues = []) := by
  refine ⟨?_, ?_, ?_⟩
  · intro h
    have he : ValidateService u fs = emptyServiceValidation u.Name := by
      unfold ValidateService
      rw [if_pos h]
    exact ⟨he, by rw [he]; rfl, by rw [he]; rfl, by rw [he]; rfl⟩
  · intro h
    have he : ValidateMount u fs = emptyMountValidation u.Name := by
      unfold ValidateMount
      rw [if_pos h]
    exact ⟨he, by rw [he]; rfl, by rw [he]; rfl⟩
  · intro h
    have he : ValidateSocket u allUnits net = emptySocketValidation u.Name := by
      unfold ValidateSocket
      rw [if_pos h]
    exact ⟨he, by rw [he]; rfl, by rw [he]; rfl, by rw [he]; rfl⟩

/-- Witness for C10: a timer unit fed to the service validator and a
service unit fed to the mount and socket validators. -/
theorem C10_type_mismatch_validators_witness :
    ValidateService fixTimerUnit fixFS =
      emptyServiceValidation "app.timer" ∧
      ValidateMount fixServiceUnit fixFS =
        emptyMountValidation "app.service" ∧
      ValidateSocket fixServiceUnit [] fixNet =
        emptySocketValidation "app.service" := by
  refine ⟨?_, ?_, ?_⟩
  · exact ((C10_type_mismatch_validators fixTimerUnit fixFS [] fixNet).1
      (by decide)).1
  · exact ((C10_type_mismatch_validators fixServiceUnit fixFS [] fixNet).2.1
      (by decide)).1
  · exact ((C10_type_mismatch_validators fixServiceUnit fixFS [] fixNet).2.2
      (by decide)).1

/-! ## C8 — issue ordering of the scan result -/

theorem severity_toNat_le_four (s : Severity) : s.toNat ≤ 4 := by
  cases s <;> simp [Severity.toNat]

theorem issueLe_iff (a b : Issue) :
    issueLe a b ↔
      (b.Severity.toNat < a.Severity.toNat ∨
        (a.Severity.toNat = b.Severity.toNat ∧ strLe a.Unit b.Unit = true)) := by
  have ha := severity_toNat_le_four a.Severity
  have hb := severity_toNat_le_four b.Severity
  unfold issueLe keyLe cmpProd issueKey cmpNat strLe
  rcases Nat.lt_trichotomy a.Severity.toNat b.Severity.toNat with h | h | h
  · have h1 : ¬(4 - a.Severity.toNat < 4 - b.Severity.toNat) := by omega
    have h2 : 4 - b.Severity.toNat < 4 - a.Severity.toNat := by omega
    simp [h1, h2]
    omega
  · have h1 : ¬(4 - a.Severity.toNat < 4 - b.Severity.toNat) := by omega
    have h2 : ¬(4 - b.Severity.toNat < 4 - a.Severity.toNat) := by omega
    simp [h1, h2, h]
  · have h1 : 4 - a.Severity.toNat < 4 - b.Severity.toNat := by omega
    simp [h1]
    omega

/-- C8: the issue list assembled by a scan (rules run per unit, results
concatenated, then sorted as in Analyzer.Scan and Analyzer.CheckFiles) is
ordered by non-increasing severity and, among issues of equal severity,
by non-decreasing unit name; and it is a permutation of the issues the
rules produced. -/
theorem C8_issue_ordering (units : List UnitFile)
    (runRules : UnitFile → List Issue) :
    List.Pairwise
      (fun a b : Issue =>
        b.Severity.toNat ≤ a.Severity.toNat ∧
          (a.Severity.toNat = b.Severity.toNat →
            strLe a.Unit b.Unit = true))
      (scanIssues units runRules) ∧
    (scanIssues units runRules).Perm (units.flatMap runRules) := by
  constructor
  · have hlaws := cmpProd_laws cmpNat_laws cmpL_laws
    haveI : IsTotal Issue issueLe := ⟨keyLe_total hlaws issueKey⟩
    haveI : IsTrans Issue issueLe := ⟨keyLe_trans hlaws issueKey⟩
    have hs := List.sorted_insertionSort issueLe (units.flatMap runRules)
    unfold scanIssues
    refine List.Pairwise.imp ?_ hs
    intro a b hab
    rw [issueLe_iff] at hab
    rcases hab with h | ⟨h1, h2⟩
    · exact ⟨Nat.le_of_lt h, fun he => absurd he (by omega)⟩
    · exact ⟨Nat.le_of_eq h1.symm, fun _ => h2⟩
  · exact List.perm_insertionSort _ _

/-! ## C4 — dangling references -/

theorem string_data_eq_iff (a b : String) : a.data = b.data ↔ a = b := by
  cases a
  cases b
  constructor
  · intro h
    exact congrArg String.mk h
  · intro h
    injection h

theorem cmpNat_lt_iff (a b : ℕ) : cmpNat a b = Ordering.lt ↔ a < b := by
  unfold cmpNat
  split
  · simp_all
  · split <;> simp_all <;> omega

theorem cmpProd_ne_gt_iff {α β : Type} {f : α → α → Ordering}
    {g : β → β → Ordering} (hf : CmpLaws f) (x y : α × β) :
    cmpProd f g x y ≠ Ordering.gt ↔
      (f x.1 y.1 = Ordering.lt ∨
        (x.1 = y.1 ∧ g x.2 y.2 ≠ Ordering.gt)) := by
  unfold cmpProd
  rcases h : f x.1 y.1 with _ | _ | _
  · simp
  · have he : x.1 = y.1 := (hf.eq_iff _ _).mp h
    simp [he]
  · have hne : x.1 ≠ y.1 := by
      intro hc
      rw [← hf.eq_iff x.1 y.1] at hc
      rw [hc] at h
      exact Ordering.noConfusion h
    simp [hne]

theorem danglingLe_iff (a b : DanglingRef) :
    danglingLe a b ↔
      (danglingRefSeverityOrder a.etype < danglingRefSeverityOrder b.etype ∨
        (danglingRefSeverityOrder a.etype =
            danglingRefSeverityOrder b.etype ∧
          (strLt a.From b.From = true ∨
            (a.From = b.From ∧ strLe a.To b.To = true)))) := by
  unfold danglingLe keyLe danglingKey
  rw [cmpProd_ne_gt_iff cmpNat_laws]
  simp only []
  rw [cmpNat_lt_iff]
  constructor
  · rintro (h | ⟨h1, h2⟩)
    · exact Or.inl h
    · refine Or.inr ⟨h1, ?_⟩
      rw [cmpProd_ne_gt_iff cmpL_laws] at h2
      simp only [] at h2
      rcases h2 with h2 | ⟨h2a, h2b⟩
      · exact Or.inl (by unfold strLt; simp [h2])
      · exact Or.inr ⟨(string_data_eq_iff _ _).mp h2a,
          by unfold strLe; simpa using h2b⟩
  · rintro (h | ⟨h1, h2⟩)
    · exact Or.inl h
    · refine Or.inr ⟨h1, ?_⟩
      rw [cmpProd_ne_gt_iff cmpL_laws]
      simp only []
      rcases h2 with h2 | ⟨h2a, h2b⟩
      · exact Or.inl (by unfold strLt at h2; simpa using h2)
      · exact Or.inr ⟨(string_data_eq_iff _ _).mpr h2a,
          by unfold strLe at h2b; simpa using h2b⟩

/-- C4: dangling-reference detection returns exactly (a permutation
before sorting) the edges whose target unit has no associated unit
record; the severity of a reference is "high" for Requires, Requisite or
BindsTo, "medium" for Wants, "low" for After or Before, and "info"
otherwise; and the returned list is sorted by that severity order, then
by the `From` name, then by the `To` name (`danglingLe`, characterized
explicitly by the last conjunct). -/
theorem C4_dangling_refs (g : Graph) :
    (g.FindDanglingRefs).Perm
      ((g.allEdges.filter (fun e => lookupA g.units e.eto = none)).map
        mkDanglingRef) ∧
    (∀ d : DanglingRef,
      d.Severity =
        (if d.etype = EdgeType.Requires ∨ d.etype = EdgeType.Requisite ∨
            d.etype = EdgeType.BindsTo then "high"
          else if d.etype = EdgeType.Wants then "medium"
          else if d.etype = EdgeType.After ∨ d.etype = EdgeType.Before then
            "low"
          else "info")) ∧
    List.Pairwise danglingLe g.FindDanglingRefs ∧
    (∀ a b : DanglingRef,
      danglingLe a b ↔
        (danglingRefSeverityOrder a.etype <
            danglingRefSeverityOrder b.etype ∨
          (danglingRefSeverityOrder a.etype =
              danglingRefSeverityOrder b.etype ∧
            (strLt a.From b.From = true ∨
              (a.From = b.From ∧ strLe a.To b.To = true))))) := by
  refine ⟨?_, ?_, ?_, danglingLe_iff⟩
  · unfold Graph.FindDanglingRefs
    exact List.perm_insertionSort _ _
  · intro d
    obtain ⟨f, t, et, fi, li⟩ := d
    cases et <;> simp [DanglingRef.Severity]
  · have hlaws := cmpProd_laws cmpNat_laws (cmpProd_laws cmpL_laws cmpL_laws)
    haveI : IsTotal DanglingRef danglingLe := ⟨keyLe_total hlaws danglingKey⟩
    haveI : IsTrans DanglingRef danglingLe := ⟨keyLe_trans hlaws danglingKey⟩
    unfold Graph.FindDanglingRefs
    exact List.sorted_insertionSort danglingLe _

/-! ## C7 — network-dependency cascade risks -/

/-- C7: a unit with an After/Requires/Wants edge to network-online.target
or network.target whose own TimeoutStartSec is finite (positive; 0
encodes infinity) and under 30 seconds is flagged with risk "critical"
below 10s, "medium" at or above 20s, and "high" otherwise; and nothing
else is flagged by this detector. -/
theorem C7_network_dependency_risks (g : Graph)
    (timeouts : String → Option TimeoutConfig) :
    (∀ unit ∈ g.Units, ∀ tc, timeouts unit.Name = some tc →
      dependsOnNetwork (g.EdgesFrom unit.Name) = true →
      0 < tc.TimeoutStartSec → tc.TimeoutStartSec < 30000000000 →
      ∃ r ∈ detectNetworkDependencyRisks g timeouts,
        r.Unit = unit.Name ∧
          r.Risk = networkRiskClass tc.TimeoutStartSec ∧
          (tc.TimeoutStartSec < 10000000000 → r.Risk = "critical") ∧
          (20000000000 ≤ tc.TimeoutStartSec → r.Risk = "medium") ∧
          (10000000000 ≤ tc.TimeoutStartSec →
            tc.TimeoutStartSec < 20000000000 → r.Risk = "high")) ∧
    (∀ r ∈ detectNetworkDependencyRisks g timeouts,
      ∃ unit ∈ g.Units, ∃ tc,
        r.Unit = unit.Name ∧ timeouts unit.Name = some tc ∧
          dependsOnNetwork (g.EdgesFrom unit.Name) = true ∧
          0 < tc.TimeoutStartSec ∧ tc.TimeoutStartSec < 30000000000 ∧
          r.Risk = networkRiskClass tc.TimeoutStartSec) := by
  constructor
  · intro unit hu tc htc hdep h0 h30
    have hm :
        ({ Unit := unit.Name, CriticalPath := 0
           OwnTimeout := tc.TimeoutStartSec
           Risk := networkRiskClass tc.TimeoutStartSec
           Recommendation :=
             "Increase TimeoutStartSec to at least 60s for network-dependent services"
           File := tc.Source, Line := 0 } : CascadeRisk) ∈
          detectNetworkDependencyRisks g timeouts := by
      refine List.mem_filterMap.mpr ⟨unit, hu, ?_⟩
      rw [if_pos hdep, htc]
      simp only []
      rw [if_pos ⟨h0, h30⟩]
    refine ⟨_, hm, rfl, rfl, ?_, ?_, ?_⟩
    · intro h
      unfold networkRiskClass
      rw [if_pos h]
    · intro h
      unfold networkRiskClass
      rw [if_neg (by omega), if_pos h]
    · intro h1 h2
      unfold networkRiskClass
      rw [if_neg (by omega), if_neg (by omega)]
  · intro r hr
    obtain ⟨unit, hu, heq⟩ := List.mem_filterMap.mp hr
    refine ⟨unit, hu, ?_⟩
    split at heq
    · split at heq
      next htc => exact Option.noConfusion heq
      next tc htc =>
        split at heq
        next hc =>
          cases Option.some.inj heq
          exact ⟨tc, rfl, htc, by assumption, hc.1, hc.2, rfl⟩
        next hc => exact Option.noConfusion heq
    · exact Option.noConfusion heq

/-- A unit depending on network-online.target (C7 witness fixture). -/
def fixNetUnit : UnitFile :=
  { Name := "web.service", Path := "/etc/systemd/system/web.service"
    type_ := "service", Sections := [], Raw := "" }

/-- An edge record with only the endpoints and type populated. -/
def fixEdge (f t : String) (et : EdgeType) : Edge :=
  { efrom := f, eto := t, etype := et, File := "", Line := 0
    Implicit := false }

/-- Graph for the C7 witness. -/
def fixNetG : Graph :=
  { units := [("web.service", fixNetUnit)]
    allEdges := [fixEdge "web.service" "network-online.target"
      EdgeType.After] }

/-- Timeout config for the C7 witness: TimeoutStartSec of 5 seconds. -/
def fixTC : TimeoutConfig :=
  { Unit := "web.service", TimeoutStartSec := 5000000000
    TimeoutStopSec := 90000000000, TimeoutAbortSec := 90000000000
    JobTimeoutSec := 0, RestartSec := 100000000, Source := "" }

/-- Timeout map for the C7 witness. -/
def fixTimeouts : String → Option TimeoutConfig :=
  fun n => if n = "web.service" then some fixTC else none

/-- Witness for C7: a 5-second timeout on a network-online.target
dependent is flagged, classified "critical". -/
theorem C7_network_dependency_risks_witness :
    ∃ r ∈ detectNetworkDependencyRisks fixNetG fixTimeouts,
      r.Unit = "web.service" ∧ r.Risk = "critical" := by
  have h := (C7_network_dependency_risks fixNetG fixTimeouts).1 fixNetUnit
    (by decide) fixTC (by decide) (by decide) (by decide) (by decide)
  obtain ⟨r, hr, h1, _, h3, _, _⟩ := h
  exact ⟨r, hr, h1, h3 (by decide)⟩

/-! ## C6 — timeout deadlocks -/

/-- A unit with JobTimeoutSec= set (C6 fixtures). -/
def fixJobUnit (n : String) : UnitFile :=
  { Name := n, Path := "", type_ := "service"
    Sections :=
      [("Unit",
        { Name := "Unit"
          Directives :=
            [("JobTimeoutSec",
              [{ Key := "JobTimeoutSec", Value := "300", Line := 2 }])] })]
    Raw := "" }

/-- C6 counterexample graph: `u.service` has exactly 3 direct After=
edges and exactly 10 transitive forward dependencies. -/
def cexTimeoutG : Graph :=
  { units := [("u.service", fixJobUnit "u.service")]
    allEdges :=
      [fixEdge "u.service" "d01.service" EdgeType.After,
       fixEdge "u.service" "d02.service" EdgeType.After,
       fixEdge "u.service" "d03.service" EdgeType.After,
       fixEdge "u.service" "d04.service" EdgeType.Requires,
       fixEdge "u.service" "d05.service" EdgeType.Requires,
       fixEdge "u.service" "d06.service" EdgeType.Requires,
       fixEdge "u.service" "d07.service" EdgeType.Requires,
       fixEdge "u.service" "d08.service" EdgeType.Requires,
       fixEdge "u.service" "d09.service" EdgeType.Requires,
       fixEdge "u.service" "d10.service" EdgeType.Requires] }

/-- C6 counterexample, refuting the claim as stated: `u.service` has
JobTimeoutSec= set, at least 10 (exactly 10) transitive forward
dependencies and at least 3 (exactly 3) direct After= edges, yet the
detector flags nothing, because the code requires strictly more than 10
and strictly more than 3. -/
theorem C6_timeout_deadlocks_counterexample :
    (fixJobUnit "u.service").GetDirective "Unit" "JobTimeoutSec" ≠ "" ∧
      (cexTimeoutG.TransitiveDependencies "u.service").length = 10 ∧
      ((cexTimeoutG.EdgesFrom "u.service").filter
        (fun e => e.etype = EdgeType.After)).length = 3 ∧
      DetectTimeoutDeadlocks cexTimeoutG
        [("u.service", fixJobUnit "u.service")] = [] := by
  refine ⟨by decide, by decide, by decide, by decide⟩

/-- C6 as amended: timeout-deadlock detection flags, with severity
"medium", exactly those units that have JobTimeoutSec= set, more than 10
(i.e. at least 11) transitive forward dependencies, and more than 3
(i.e. at least 4) direct After= edges. -/
theorem C6_timeout_deadlocks_amended (g : Graph)
    (units : List (String × UnitFile)) :
    (∀ d ∈ DetectTimeoutDeadlocks g units,
      d.Severity = "medium" ∧
        ∃ p ∈ units, d.Unit = p.1 ∧
          p.2.GetDirective "Unit" "JobTimeoutSec" ≠ "" ∧
          10 < (g.TransitiveDependencies p.1).length ∧
          3 < ((g.EdgesFrom p.1).filter
            (fun e => e.etype = EdgeType.After)).length) ∧
    (∀ p ∈ units, p.2.GetDirective "Unit" "JobTimeoutSec" ≠ "" →
      10 < (g.TransitiveDependencies p.1).length →
      3 < ((g.EdgesFrom p.1).filter
        (fun e => e.etype = EdgeType.After)).length →
      ∃ d ∈ DetectTimeoutDeadlocks g units,
        d.Unit = p.1 ∧ d.Severity = "medium") := by
  constructor
  · intro d hd
    obtain ⟨p, hp, heq⟩ := List.mem_filterMap.mp hd
    dsimp only at heq
    split at heq
    · exact Option.noConfusion heq
    next hjt =>
      split at heq
      next hc =>
        cases Option.some.inj heq
        exact ⟨rfl, p, hp, rfl, hjt, hc.1, hc.2⟩
      next hc => exact Option.noConfusion heq
  · intro p hp h1 h2 h3
    have hm : ({ Unit := p.1, Severity := "medium" } : TimeoutDeadlock) ∈
        DetectTimeoutDeadlocks g units := by
      refine List.mem_filterMap.mpr ⟨p, hp, ?_⟩
      dsimp only
      rw [if_neg h1, if_pos ⟨h2, h3⟩]
    exact ⟨_, hm, rfl, rfl⟩

/-- C6 amended-claim witness graph: `v.service` has 4 direct After=
edges and 11 transitive forward dependencies. -/
def fixTimeoutG : Graph :=
  { units := [("v.service", fixJobUnit "v.service")]
    allEdges :=
      [fixEdge "v.service" "e01.service" EdgeType.After,
       fixEdge "v.service" "e02.service" EdgeType.After,
       fixEdge "v.service" "e03.service" EdgeType.After,
       fixEdge "v.service" "e04.service" EdgeType.After,
       fixEdge "v.service" "e05.service" EdgeType.Requires,
       fixEdge "v.service" "e06.service" EdgeType.Requires,
       fixEdge "v.service" "e07.service" EdgeType.Requires,
       fixEdge "v.service" "e08.service" EdgeType.Requires,
       fixEdge "v.service" "e09.service" EdgeType.Requires,
       fixEdge "v.service" "e10.service" EdgeType.Requires,
       fixEdge "v.service" "e11.service" EdgeType.Wants] }

/-- Witness for the amended C6: a unit over both thresholds is
flagged with severity "medium". -/
theorem C6_timeout_deadlocks_amended_witness :
    ∃ d ∈ DetectTimeoutDeadlocks fixTimeoutG
      [("v.service", fixJobUnit "v.service")],
      d.Unit = "v.service" ∧ d.Severity = "medium" := by
  exact (C6_timeout_deadlocks_amended fixTimeoutG
      [("v.service", fixJobUnit "v.service")]).2
    ("v.service", fixJobUnit "v.service") (by decide) (by decide)
    (by decide) (by decide)

/-! ## C1 — cycle severity -/

theorem crit_any_iff (l : List EdgeType) :
    l.any
        (fun et => et = EdgeType.Requires || et = EdgeType.BindsTo ||
          et = EdgeType.Requisite) = true ↔
      (EdgeType.Requires ∈ l ∨ EdgeType.BindsTo ∈ l ∨
        EdgeType.Requisite ∈ l) := by
  rw [List.any_eq_true]
  constructor
  · rintro ⟨x, hx, hp⟩
    simp only [Bool.or_eq_true, decide_eq_true_eq] at hp
    rcases hp with (h | h) | h
    · exact Or.inl (h ▸ hx)
    · exact Or.inr (Or.inl (h ▸ hx))
    · exact Or.inr (Or.inr (h ▸ hx))
  · rintro (h | h | h)
    · exact ⟨_, h, by simp⟩
    · exact ⟨_, h, by simp⟩
    · exact ⟨_, h, by simp⟩

theorem wants_any_iff (l : List EdgeType) :
    l.any (fun et => et = EdgeType.Wants) = true ↔ EdgeType.Wants ∈ l := by
  rw [List.any_eq_true]
  constructor
  · rintro ⟨x, hx, hp⟩
    simp only [decide_eq_true_eq] at hp
    exact hp ▸ hx
  · intro h
    exact ⟨_, h, by simp⟩

/-- Every element of Graph.FindCycles is an SCC record built by `mkSCC`
from a component of more than one node. -/
theorem mem_FindCycles {g : Graph} {scc : SCC} (h : scc ∈ g.FindCycles) :
    ∃ comp, 1 < comp.length ∧ scc = mkSCC g comp := by
  unfold Graph.FindCycles at h
  have h2 := (List.perm_insertionSort _ _).mem_iff.mp h
  obtain ⟨comp, hcomp, heq⟩ := List.mem_filterMap.mp h2
  split at heq
  · exact ⟨comp, by assumption, (Option.some.inj heq).symm⟩
  · exact Option.noConfusion heq

/-- C1: for every SCC returned by cycle detection, the cycle severity is
"critical" exactly when the component's edge types include Requires,
BindsTo or Requisite; otherwise "high" exactly when they include Wants;
otherwise "medium".  In particular any Requires edge with both endpoints
inside the component forces severity "critical". -/
theorem cycleSeverity_iff (s : SCC) :
    (s.CycleSeverity = "critical" ↔
      (EdgeType.Requires ∈ s.EdgeTypes ∨ EdgeType.BindsTo ∈ s.EdgeTypes ∨
        EdgeType.Requisite ∈ s.EdgeTypes)) ∧
    (s.CycleSeverity = "high" ↔
      (¬(EdgeType.Requires ∈ s.EdgeTypes ∨ EdgeType.BindsTo ∈ s.EdgeTypes ∨
          EdgeType.Requisite ∈ s.EdgeTypes) ∧
        EdgeType.Wants ∈ s.EdgeTypes)) ∧
    (s.CycleSeverity = "medium" ↔
      (¬(EdgeType.Requires ∈ s.EdgeTypes ∨ EdgeType.BindsTo ∈ s.EdgeTypes ∨
          EdgeType.Requisite ∈ s.EdgeTypes) ∧
        EdgeType.Wants ∉ s.EdgeTypes)) := by
  unfold SCC.CycleSeverity
  by_cases h1 : s.EdgeTypes.any
      (fun et => et = EdgeType.Requires || et = EdgeType.BindsTo ||
        et = EdgeType.Requisite) = true
  · rw [if_pos h1]
    rw [crit_any_iff] at h1
    exact ⟨⟨fun _ => h1, fun _ => rfl⟩,
      ⟨fun hc => absurd hc (by decide), fun hc => absurd h1 hc.1⟩,
      ⟨fun hc => absurd hc (by decide), fun hc => absurd h1 hc.1⟩⟩
  · rw [if_neg h1]
    rw [crit_any_iff] at h1
    by_cases h2 : s.EdgeTypes.any (fun et => et = EdgeType.Wants) = true
    · rw [if_pos h2]
      rw [wants_any_iff] at h2
      exact ⟨⟨fun hc => absurd hc (by decide), fun hc => absurd hc h1⟩,
        ⟨fun _ => ⟨h1, h2⟩, fun _ => rfl⟩,
        ⟨fun hc => absurd hc (by decide), fun hc => absurd h2 hc.2⟩⟩
    · rw [if_neg h2]
      rw [wants_any_iff] at h2
      exact ⟨⟨fun hc => absurd hc (by decide), fun hc => absurd hc h1⟩,
        ⟨fun hc => absurd hc (by decide), fun hc => absurd hc.2 h2⟩,
        ⟨fun _ => ⟨h1, h2⟩, fun _ => rfl⟩⟩

/-- C1: for every SCC returned by cycle detection, the cycle severity is
"critical" exactly when the component's edge types include Requires,
BindsTo or Requisite; otherwise "high" exactly when they include Wants;
otherwise "medium".  In particular any Requires edge with both endpoints
inside the component forces severity "critical". -/
theorem C1_cycle_severity (g : Graph) (scc : SCC)
    (h : scc ∈ g.FindCycles) :
    (scc.CycleSeverity = "critical" ↔
      (EdgeType.Requires ∈ scc.EdgeTypes ∨
        EdgeType.BindsTo ∈ scc.EdgeTypes ∨
        EdgeType.Requisite ∈ scc.EdgeTypes)) ∧
    (scc.CycleSeverity = "high" ↔
      (¬(EdgeType.Requires ∈ scc.EdgeTypes ∨
          EdgeType.BindsTo ∈ scc.EdgeTypes ∨
          EdgeType.Requisite ∈ scc.EdgeTypes) ∧
        EdgeType.Wants ∈ scc.EdgeTypes)) ∧
    (scc.CycleSeverity = "medium" ↔
      (¬(EdgeType.Requires ∈ scc.EdgeTypes ∨
          EdgeType.BindsTo ∈ scc.EdgeTypes ∨
          EdgeType.Requisite ∈ scc.EdgeTypes) ∧
        EdgeType.Wants ∉ scc.EdgeTypes)) ∧
    (∀ e ∈ g.allEdges, e.etype = EdgeType.Requires →
      e.efrom ∈ scc.Units → e.eto ∈ scc.Units →
      scc.CycleSeverity = "critical") := by
  have hsev := cycleSeverity_iff scc
  refine ⟨hsev.1, hsev.2.1, hsev.2.2, ?_⟩
  intro e he het hfrom hto
  obtain ⟨comp, hlen, hscc⟩ := mem_FindCycles h
  rw [hsev.1]
  refine Or.inl ?_
  have hfrom2 : e.efrom ∈ comp := by
    rw [hscc] at hfrom
    unfold mkSCC at hfrom
    exact (List.perm_insertionSort _ _).mem_iff.mp hfrom
  have hto2 : e.eto ∈ comp := by
    rw [hscc] at hto
    unfold mkSCC at hto
    exact (List.perm_insertionSort _ _).mem_iff.mp hto
  rw [hscc]
  unfold mkSCC
  refine (List.perm_insertionSort _ _).mem_iff.mpr ?_
  rw [List.mem_dedup, ← het]
  exact List.mem_map_of_mem _
    (List.mem_filter.mpr ⟨he, by simp [hfrom2, hto2]⟩)

/-- Graph for the C1 witness: a two-unit Requires cycle. -/
def cycG : Graph :=
  { units :=
      [("a.service", fixJobUnit "a.service"),
       ("b.service", fixJobUnit "b.service")]
    allEdges :=
      [fixEdge "a.service" "b.service" EdgeType.Requires,
       fixEdge "b.service" "a.service" EdgeType.Requires] }

/-- Witness for C1: the Requires cycle's SCC has severity "critical". -/
theorem C1_cycle_severity_witness :
    (mkSCC cycG ["a.service", "b.service"]).CycleSeverity = "critical" := by
  have h := C1_cycle_severity cycG (mkSCC cycG ["a.service", "b.service"])
    (by decide)
  exact h.2.2.2 (fixEdge "a.service" "b.service" EdgeType.Requires)
    (by decide) (by decide) (by decide) (by decide)

/-! ## C2 — failure simulation soundness -/

/-- The per-record invariant of the failure simulation: a record produced
under a sweep carries the impact label of that sweep, its causing edge's
semantics allow the propagation, and its severity is the per-edge
severity. -/
def recOK (impactType : String) (a : AffectedUnit) : Prop :=
  ((impactType = "fail" ∧ a.Impact = "fail_to_start" ∧
      (GetSemantics a.etype).StartFailure = true) ∨
    (impactType = "stop" ∧ a.Impact = "stop" ∧
      (GetSemantics a.etype).StopPropagates = true)) ∧
  a.Severity = propStepSeverity a.etype

theorem propDecision_true {sem : PropagationSemantics} {it : String}
    (h : (propDecision sem it).2 = true) :
    (it = "fail" ∧ (propDecision sem it).1 = "fail_to_start" ∧
        sem.StartFailure = true) ∨
      (it = "stop" ∧ (propDecision sem it).1 = "stop" ∧
        sem.StopPropagates = true) := by
  unfold propDecision at *
  by_cases h1 : it = "fail"
  · rw [if_pos h1] at h ⊢
    by_cases h2 : sem.StartFailure = true
    · rw [if_pos h2] at h ⊢
      exact Or.inl ⟨h1, rfl, h2⟩
    · rw [if_neg h2] at h
      exact Bool.noConfusion h
  · rw [if_neg h1] at h ⊢
    by_cases h2 : it = "stop"
    · rw [if_pos h2] at h ⊢
      by_cases h3 : sem.StopPropagates = true
      · rw [if_pos h3] at h ⊢
        exact Or.inr ⟨h2, rfl, h3⟩
      · rw [if_neg h3] at h
        exact Bool.noConfusion h
    · rw [if_neg h2] at h
      exact Bool.noConfusion h

theorem propagateLoop_sound
    (step : String → List String → List String → String →
      List String × List AffectedUnit)
    (hstep : ∀ dep v p i, ∀ a ∈ (step dep v p i).2, recOK i a) :
    ∀ (edges : List Edge) (visited path : List String)
      (impactType : String),
      ∀ a ∈ (propagateLoop step edges visited path impactType).2,
        recOK impactType a := by
  intro edges
  induction edges with
  | nil =>
    intro visited path it a ha
    simp [propagateLoop] at ha
  | cons e rest ih =>
    intro visited path it a ha
    rw [propagateLoop] at ha
    split at ha
    next hcond =>
      dsimp only at ha
      simp only [List.mem_cons, List.mem_append, or_assoc] at ha
      rcases ha with ha | ha | ha
      · subst ha
        refine ⟨?_, rfl⟩
        have hd := propDecision_true hcond.1
        rcases hd with ⟨h1, h2, h3⟩ | ⟨h1, h2, h3⟩
        · exact Or.inl ⟨h1, h2, h3⟩
        · exact Or.inr ⟨h1, h2, h3⟩
      · have hr := hstep _ _ _ _ a ha
        have hd := propDecision_true hcond.1
        rcases hd with ⟨h1, h2, _⟩ | ⟨h1, h2, _⟩
        · rcases hr.1 with ⟨hc, _, _⟩ | ⟨hc, _, _⟩
          · rw [h2] at hc
            exact absurd hc (by decide)
          · rw [h2] at hc
            exact absurd hc (by decide)
        · rcases hr.1 with ⟨hc, _, _⟩ | ⟨hc, hi, hs⟩
          · rw [h2] at hc
            exact absurd hc (by decide)
          · exact ⟨Or.inr ⟨h1, hi, hs⟩, hr.2⟩
      · exact ih _ _ _ a ha
    next =>
      exact ih _ _ _ a ha

theorem propagate_sound (g : Graph) :
    ∀ (fuel : ℕ) (unit : String) (visited path : List String)
      (impactType : String),
      ∀ a ∈ (propagate g fuel unit visited path impactType).2,
        recOK impactType a := by
  intro fuel
  induction fuel with
  | zero =>
    intro unit visited path it a ha
    simp [propagate] at ha
  | succ n ih =>
    intro unit visited path it a ha
    rw [propagate] at ha
    split at ha
    · simp at ha
    · exact propagateLoop_sound _ (fun dep v p i => ih dep v p i) _ _ _ _
        a ha

theorem propStepSeverity_eq (et : EdgeType) :
    propStepSeverity et =
      (if et = EdgeType.Requisite then "critical"
        else if et = EdgeType.Requires ∨ et = EdgeType.BindsTo then "high"
        else "medium") := by
  cases et <;> decide

/-- C2: every affected unit recorded by SimulateFailure is reached either
in the fail sweep (along an edge whose semantics set StartFailure,
recorded with impact "fail_to_start") or, after the visited set is reset,
in the stop sweep (along an edge whose semantics set StopPropagates,
recorded with impact "stop"); and its recorded per-edge severity is
"critical" for a Requisite edge, "high" for Requires or BindsTo, and
"medium" otherwise. -/
theorem C2_simulate_failure (g : Graph) (u : String) :
    (SimulateFailure g u).AffectedUnits = failSweep g u ++ stopSweep g u ∧
    (∀ a ∈ failSweep g u,
      a.Impact = "fail_to_start" ∧
        (GetSemantics a.etype).StartFailure = true) ∧
    (∀ a ∈ stopSweep g u,
      a.Impact = "stop" ∧ (GetSemantics a.etype).StopPropagates = true) ∧
    (∀ a ∈ (SimulateFailure g u).AffectedUnits,
      a.Severity =
        (if a.etype = EdgeType.Requisite then "critical"
          else if a.etype = EdgeType.Requires ∨ a.etype = EdgeType.BindsTo
            then "high"
          else "medium")) := by
  refine ⟨rfl, ?_, ?_, ?_⟩
  · intro a ha
    have h := propagate_sound g _ _ _ _ _ a ha
    rcases h.1 with ⟨_, h2, h3⟩ | ⟨hc, _, _⟩
    · exact ⟨h2, h3⟩
    · exact absurd hc (by decide)
  · intro a ha
    have h := propagate_sound g _ _ _ _ _ a ha
    rcases h.1 with ⟨hc, _, _⟩ | ⟨_, h2, h3⟩
    · exact absurd hc (by decide)
    · exact ⟨h2, h3⟩
  · intro a ha
    rw [← propStepSeverity_eq]
    rcases List.mem_append.mp ha with ha | ha
    · exact (propagate_sound g _ _ _ _ _ a ha).2
    · exact (propagate_sound g _ _ _ _ _ a ha).2

/-- Graph for the C2 witness: `b.service` binds to `a.service`. -/
def fixPropG : Graph :=
  { units :=
      [("a.service", fixJobUnit "a.service"),
       ("b.service", fixJobUnit "b.service")]
    allEdges := [fixEdge "b.service" "a.service" EdgeType.BindsTo] }

/-- The record SimulateFailure produces for the C2 witness graph. -/
def fixAff : AffectedUnit :=
  { Name := "b.service", Impact := "fail_to_start"
    PropagationPath := ["a.service", "b.service"]
    etype := EdgeType.BindsTo, Severity := "high" }

/-- Witness for C2: the BindsTo dependent of the failed unit is recorded
in the fail sweep with impact "fail_to_start" and severity "high". -/
theorem C2_simulate_failure_witness :
    fixAff.Impact = "fail_to_start" ∧
      (GetSemantics fixAff.etype).StartFailure = true ∧
      fixAff.Severity = "high" := by
  have h := C2_simulate_failure fixPropG "a.service"
  have h1 := h.2.1 fixAff (by decide)
  have h2 := h.2.2.2 fixAff (by decide)
  refine ⟨h1.1, h1.2, ?_⟩
  rw [h2]
  decide

/-! ## C3 — duration parser: helper lemmas -/

theorem isDigit_bounds (c : Char) :
    c.isDigit = true ↔ 48 ≤ c.toNat ∧ c.toNat ≤ 57 := by
  simp only [Char.isDigit, Bool.and_eq_true, decide_eq_true_eq]
  exact Iff.rfl

theorem digit_ne {c d : Char} (hc : c.isDigit = true)
    (hd : d.isDigit = false) : c ≠ d := by
  intro he
  rw [he, hd] at hc
  exact Bool.noConfusion hc

theorem lowerChar_digit {c : Char} (h : c.isDigit = true) :
    lowerChar c = c := by
  have hb := (isDigit_bounds c).mp h
  unfold lowerChar
  rw [if_neg]
  rintro ⟨h1, h2⟩
  have h1' : (65 : ℕ) ≤ c.toNat := h1
  omega

theorem digit_not_spaceGo {c : Char} (h : c.isDigit = true) :
    isSpaceGo c = false := by
  have hb := (isDigit_bounds c).mp h
  unfold isSpaceGo
  simp only [Bool.or_eq_false_iff, decide_eq_false_iff_not]
  refine ⟨⟨⟨⟨⟨?_, ?_⟩, ?_⟩, ?_⟩, ?_⟩, ?_⟩ <;>
    (rintro rfl; exact absurd hb (by decide))

theorem digit_not_spaceRe {c : Char} (h : c.isDigit = true) :
    isSpaceRe c = false := by
  have hb := (isDigit_bounds c).mp h
  unfold isSpaceRe
  simp only [Bool.or_eq_false_iff, decide_eq_false_iff_not]
  refine ⟨⟨⟨⟨?_, ?_⟩, ?_⟩, ?_⟩, ?_⟩ <;>
    (rintro rfl; exact absurd hb (by decide))

theorem takeWhile_append_of {p : Char → Bool} :
    ∀ (l r : List Char), (∀ c ∈ l, p c = true) →
      (∀ c, r.head? = some c → p c = false) →
      (l ++ r).takeWhile p = l ∧ (l ++ r).dropWhile p = r
  | [], r, _, hr => by
    cases r with
    | nil => exact ⟨rfl, rfl⟩
    | cons c t =>
      have := hr c rfl
      simp [List.takeWhile_cons, List.dropWhile_cons, this]
  | a :: l, r, hl, hr => by
    have ha := hl a (by simp)
    have ih := takeWhile_append_of l r (fun c hc => hl c (by simp [hc])) hr
    simp [List.takeWhile_cons, List.dropWhile_cons, ha, ih.1, ih.2]

theorem takeWhile_all {p : Char → Bool} (l : List Char)
    (h : ∀ c ∈ l, p c = true) :
    l.takeWhile p = l ∧ l.dropWhile p = [] := by
  have := takeWhile_append_of l [] h (by intro c hc; cases hc)
  simpa using this

theorem dropWhile_head_false {p : Char → Bool} (l : List Char)
    (h : ∀ c, l.head? = some c → p c = false) :
    l.takeWhile p = [] ∧ l.dropWhile p = l := by
  have := takeWhile_append_of [] l (by intro c hc; cases hc) h
  simpa using this

theorem scanFrac_not_dot {l : List Char}
    (h : ∀ c, l.head? = some c → c ≠ '.') : scanFrac l = ([], l) := by
  unfold scanFrac
  split
  next t =>
    exact absurd rfl (h '.' rfl)
  next => rfl

theorem parseSign_digit {l : List Char}
    (h : ∀ c, l.head? = some c → c.isDigit = true) :
    parseSign l = (false, l) := by
  unfold parseSign
  split
  next t =>
    exact absurd (h '-' rfl) (by decide)
  next t =>
    exact absurd (h '+' rfl) (by decide)
  next => rfl

theorem scanMatchesF_no_digit :
    ∀ (fuel : ℕ) (l : List Char), (∀ c ∈ l, c.isDigit = false) →
      scanMatchesF fuel l = []
  | 0, _, _ => rfl
  | _ + 1, [], _ => rfl
  | fuel + 1, c :: cs, h => by
    have hc := h c (by simp)
    rw [scanMatchesF, if_neg (by simp [hc])]
    exact scanMatchesF_no_digit fuel cs (fun d hd => h d (by simp [hd]))

theorem trimSpaceL_eq_self {l : List Char}
    (h : ∀ c ∈ l, isSpaceGo c = false) : trimSpaceL l = l := by
  unfold trimSpaceL
  have h1 : l.dropWhile isSpaceGo = l := by
    cases l with
    | nil => rfl
    | cons c t => simp [List.dropWhile_cons, h c (by simp)]
  rw [h1]
  have h2 : l.reverse.dropWhile isSpaceGo = l.reverse := by
    cases hr : l.reverse with
    | nil => rfl
    | cons c t =>
      have hc : c ∈ l := by
        rw [← List.mem_reverse, hr]
        simp
      simp [List.dropWhile_cons, h c hc]
  rw [h2, List.reverse_reverse]

theorem mem_of_trimSpace {c : Char} {l : List Char}
    (h : c ∈ trimSpaceL l) : c ∈ l := by
  unfold trimSpaceL at h
  rw [List.mem_reverse] at h
  have h1 := (List.dropWhile_sublist isSpaceGo).mem h
  rw [List.mem_reverse] at h1
  exact (List.dropWhile_sublist isSpaceGo).mem h1

theorem data_mk (l : List Char) : (String.mk l).data = l := rfl

theorem mk_eq_str {l : List Char} {s : String} :
    String.mk l = s ↔ l = s.data := by
  rw [← string_data_eq_iff]

theorem lowerL_ne_of_digit_head {c : Char} {cs : List Char}
    (hc : c.isDigit = true) (d : Char) (ws : List Char)
    (hd : d.isDigit = false) : lowerL (c :: cs) ≠ d :: ws := by
  simp only [lowerL, List.map_cons]
  rw [lowerChar_digit hc]
  intro he
  injection he with he1 _
  exact digit_ne hc hd he1

theorem goParseFloat_cons_digit_aux {c : Char} {cs : List Char}
    (hc : c.isDigit = true) :
    goParseFloat (String.mk (c :: cs)) = parseDecFloat false (c :: cs) := by
  unfold goParseFloat
  dsimp only
  rw [parseSign_digit (by rintro d ⟨rfl⟩; exact hc)]
  rw [if_neg, if_neg]
  · exact lowerL_ne_of_digit_head hc 'n' ['a', 'n'] (by decide)
  · rintro (h | h)
    · exact lowerL_ne_of_digit_head hc 'i' ['n', 'f'] (by decide) h
    · exact lowerL_ne_of_digit_head hc 'i'
        ['n', 'f', 'i', 'n', 'i', 't', 'y'] (by decide) h

theorem fracSplit_dot (t : List Char) :
    fracSplit ('.' :: t) =
      (t.takeWhile Char.isDigit, t.dropWhile Char.isDigit) := rfl

theorem fracSplit_not_dot {l : List Char}
    (h : ∀ c, l.head? = some c → c ≠ '.') : fracSplit l = ([], l) := by
  unfold fracSplit
  split
  next t => exact absurd rfl (h '.' rfl)
  next => rfl

theorem goParseFloat_digits {ds : List Char} (h1 : ds ≠ [])
    (h2 : ∀ c ∈ ds, c.isDigit = true) :
    goParseFloat (String.mk ds) =
      some (GoFloat.num ⟨false, natOfDigits ds, 0⟩) := by
  rcases ds with _ | ⟨c, cs⟩
  · exact absurd rfl h1
  rw [goParseFloat_cons_digit_aux (h2 c (by simp))]
  unfold parseDecFloat
  have htw := takeWhile_all (c :: cs) h2
  rw [htw.1, htw.2]
  dsimp only
  rw [fracSplit_not_dot (l := []) (by intro d hd; exact absurd hd (by simp))]
  dsimp only
  rw [if_neg (by simp)]
  simp

theorem goParseFloat_digits_frac {ds fs : List Char} (h1 : ds ≠ [])
    (h2 : ∀ c ∈ ds, c.isDigit = true) (h3 : ∀ c ∈ fs, c.isDigit = true) :
    goParseFloat (String.mk (ds ++ '.' :: fs)) =
      some (GoFloat.num ⟨false, natOfDigits (ds ++ fs),
        -(fs.length : ℤ)⟩) := by
  rcases ds with _ | ⟨c, cs⟩
  · exact absurd rfl h1
  rw [List.cons_append, goParseFloat_cons_digit_aux (h2 c (by simp)),
    ← List.cons_append]
  unfold parseDecFloat
  have htw := takeWhile_append_of (c :: cs) ('.' :: fs) h2
    (by rintro d ⟨rfl⟩; decide)
  have htf := takeWhile_all fs h3
  rw [htw.1, htw.2]
  dsimp only
  rw [fracSplit_dot, htf.1, htf.2]
  dsimp only
  rw [if_neg (by simp)]

theorem goParseFloat_digits_word {ds w : List Char} (h1 : ds ≠ [])
    (h2 : ∀ c ∈ ds, c.isDigit = true) (hw : wordOK w = true) :
    goParseFloat (String.mk (ds ++ w)) = none := by
  rcases ds with _ | ⟨c, cs⟩
  · exact absurd rfl h1
  rcases w with _ | ⟨w0, wt⟩
  · exact absurd hw (by simp [wordOK])
  simp only [wordOK, Bool.and_eq_true, Bool.not_eq_true',
    beq_eq_false_iff_ne, ne_eq, List.all_eq_true] at hw
  obtain ⟨⟨⟨⟨⟨⟨hwd, hwsp⟩, hwdot⟩, hwe⟩, hwE⟩, -⟩, -⟩ := hw
  rw [List.cons_append, goParseFloat_cons_digit_aux (h2 c (by simp)),
    ← List.cons_append]
  unfold parseDecFloat
  have htw := takeWhile_append_of (c :: cs) (w0 :: wt) h2
    (by rintro d ⟨rfl⟩; exact hwd)
  rw [htw.1, htw.2]
  dsimp only
  rw [fracSplit_not_dot (by rintro d ⟨rfl⟩; exact hwdot)]
  dsimp only
  rw [if_neg (by simp)]
  rw [if_neg]
  rintro (rfl | rfl)
  · exact hwe rfl
  · exact hwE rfl

/-- Decomposition of `wordOK` into the facts the parser proofs use. -/
theorem wordOK_parts {w : List Char} (hw : wordOK w = true) :
    (∀ c, w.head? = some c → c.isDigit = false ∧ isSpaceRe c = false ∧
      c ≠ '.' ∧ c ≠ 'e' ∧ c ≠ 'E') ∧
    (∀ c ∈ w, isSpaceGo c = false) ∧
    (∀ c ∈ (matchUnit w).2, c.isDigit = false) ∧ w ≠ [] := by
  rcases w with _ | ⟨w0, wt⟩
  · exact absurd hw (by simp [wordOK])
  simp only [wordOK, Bool.and_eq_true, Bool.not_eq_true',
    beq_eq_false_iff_ne, ne_eq, List.all_eq_true] at hw
  obtain ⟨⟨⟨⟨⟨⟨hwd, hwsp⟩, hwdot⟩, hwe⟩, hwE⟩, hall⟩, hleft⟩ := hw
  refine ⟨?_, hall, hleft, by simp⟩
  rintro c ⟨rfl⟩
  exact ⟨hwd, hwsp, hwdot, hwe, hwE⟩

/-- A digit run followed by a `wordOK` word yields exactly one regex
match: the digits, with the unit group matched at the word. -/
theorem scanMatchesF_digits_word {ds w : List Char} (h1 : ds ≠ [])
    (h2 : ∀ c ∈ ds, c.isDigit = true) (hw : wordOK w = true) (m : ℕ) :
    scanMatchesF (m + 1) (ds ++ w) = [(ds, (matchUnit w).1)] := by
  obtain ⟨hhead, hall, hleft, hne⟩ := wordOK_parts hw
  rcases ds with _ | ⟨c, cs⟩
  · exact absurd rfl h1
  have hc := h2 c (by simp)
  have htw := takeWhile_append_of (c :: cs) w h2
    (fun d hd => (hhead d hd).1)
  rw [List.cons_append, scanMatchesF, if_pos hc]
  dsimp only
  rw [← List.cons_append, htw.1, htw.2,
    scanFrac_not_dot (fun d hd => (hhead d hd).2.2.1)]
  dsimp only
  rw [(dropWhile_head_false w (fun d hd => (hhead d hd).2.1)).2,
    scanMatchesF_no_digit m _ hleft]
  simp

/-- `numFromMatch` on a pure digit run. -/
theorem numFromMatch_digits {ds : List Char}
    (h2 : ∀ c ∈ ds, c.isDigit = true) :
    numFromMatch ds = ⟨false, natOfDigits ds, 0⟩ := by
  unfold numFromMatch
  have htw := takeWhile_all ds h2
  rw [htw.1, htw.2]

/-- `GoNum.mulNs` at exponent zero. -/
theorem mulNs_exp0 (n m : ℕ) :
    GoNum.mulNs ⟨false, n, 0⟩ m = ((n * m : ℕ) : ℤ) := by
  unfold GoNum.mulNs
  dsimp only
  rw [if_pos le_rfl]
  norm_num

/-- `GoNum.mulNs` at a negative exponent. -/
theorem mulNs_negexp (n m k : ℕ) (hk : k ≠ 0) :
    GoNum.mulNs ⟨false, n, -(k : ℤ)⟩ m = ((n * m / 10 ^ k : ℕ) : ℤ) := by
  unfold GoNum.mulNs
  dsimp only
  rw [if_neg (show ¬(0 : ℤ) ≤ -((k : ℕ) : ℤ) by omega)]
  rw [if_neg Bool.false_ne_true, neg_neg, Int.toNat_natCast]

/-- ParseDuration on a nonempty pure digit run: that many seconds. -/
theorem ParseDuration_digits {ds : List Char} (h1 : ds ≠ [])
    (h2 : ∀ c ∈ ds, c.isDigit = true) :
    ParseDuration (String.mk ds) =
      (((natOfDigits ds * 1000000000 : ℕ) : ℤ), false) := by
  unfold ParseDuration
  have htrim : trimSpaceL (String.mk ds).data = ds := by
    rw [data_mk]
    exact trimSpaceL_eq_self (fun c hc => digit_not_spaceGo (h2 c hc))
  rw [htrim]
  dsimp only
  by_cases h0 : String.mk ds = "0"
  · rw [if_pos (Or.inr (Or.inr h0))]
    have hds : ds = ['0'] := by
      have := mk_eq_str.mp h0
      simpa using this
    subst hds
    decide
  · rw [if_neg]
    · rw [goParseFloat_digits h1 h2]
      dsimp only
      rw [mulNs_exp0]
    · rintro (hc | hc | hc)
      · exact h1 (by simpa using mk_eq_str.mp hc)
      · obtain ⟨c, cs, rfl⟩ := List.exists_cons_of_ne_nil h1
        have hc2 : c :: cs = 'i' :: "nfinity".data := mk_eq_str.mp hc
        injection hc2 with hc3 _
        exact digit_ne (h2 c (by simp)) (by decide) hc3
      · exact h0 hc

/-- ParseDuration on digits '.' digits: the exact fractional number of
seconds, truncated toward zero at nanosecond resolution. -/
theorem ParseDuration_digits_frac {ds fs : List Char} (h1 : ds ≠ [])
    (hf : fs ≠ []) (h2 : ∀ c ∈ ds, c.isDigit = true)
    (h3 : ∀ c ∈ fs, c.isDigit = true) :
    ParseDuration (String.mk (ds ++ '.' :: fs)) =
      (((natOfDigits (ds ++ fs) * 1000000000 / 10 ^ fs.length : ℕ) : ℤ),
        false) := by
  unfold ParseDuration
  have htrim : trimSpaceL (String.mk (ds ++ '.' :: fs)).data =
      ds ++ '.' :: fs := by
    rw [data_mk]
    apply trimSpaceL_eq_self
    intro c hc
    rcases List.mem_append.mp hc with h | h
    · exact digit_not_spaceGo (h2 c h)
    · rcases List.mem_cons.mp h with rfl | h
      · decide
      · exact digit_not_spaceGo (h3 c h)
  rw [htrim]
  dsimp only
  rw [if_neg]
  · rw [goParseFloat_digits_frac h1 h2 h3]
    dsimp only
    rw [mulNs_negexp _ _ _ (by simpa using hf)]
  · rintro (hc | hc | hc)
    · have := mk_eq_str.mp hc
      simp at this
    · obtain ⟨c, cs, rfl⟩ := List.exists_cons_of_ne_nil h1
      have hc2 : c :: (cs ++ '.' :: fs) = 'i' :: "nfinity".data := by
        have := mk_eq_str.mp hc
        simpa using this
      injection hc2 with hc3 _
      exact digit_ne (h2 c (by simp)) (by decide) hc3
    · have := mk_eq_str.mp hc
      have hlen := congrArg List.length this
      obtain ⟨c, cs, rfl⟩ := List.exists_cons_of_ne_nil h1
      simp at hlen

/-- ParseDuration on digits followed by a `wordOK` word: the digits
times the multiplier of the unit the regex matches inside the word. -/
theorem ParseDuration_digits_word {ds w : List Char} (h1 : ds ≠ [])
    (h2 : ∀ c ∈ ds, c.isDigit = true) (hw : wordOK w = true) :
    ParseDuration (String.mk (ds ++ w)) =
      (((natOfDigits ds * unitMultNs (matchUnit w).1 : ℕ) : ℤ),
        false) := by
  obtain ⟨hhead, hall, hleft, hne⟩ := wordOK_parts hw
  unfold ParseDuration
  have htrim : trimSpaceL (String.mk (ds ++ w)).data = ds ++ w := by
    rw [data_mk]
    apply trimSpaceL_eq_self
    intro c hc
    rcases List.mem_append.mp hc with hc | hc
    · exact digit_not_spaceGo (h2 c hc)
    · exact hall c hc
  rw [htrim]
  dsimp only
  rw [if_neg]
  · rw [goParseFloat_digits_word h1 h2 hw]
    dsimp only
    unfold parseSystemdTimeSpan
    rw [data_mk, htrim]
    dsimp only
    rw [if_neg (fun hc => h1 (List.append_eq_nil.mp hc).1)]
    rw [scanMatchesF_digits_word h1 h2 hw _]
    rw [if_neg (by simp)]
    simp only [List.foldl_cons, List.foldl_nil]
    rw [numFromMatch_digits h2, mulNs_exp0]
    norm_num
  · rintro (hc | hc | hc)
    · have := mk_eq_str.mp hc
      simp at this
      exact h1 this.1
    · obtain ⟨c, cs, rfl⟩ := List.exists_cons_of_ne_nil h1
      have hc2 : c :: (cs ++ w) = 'i' :: "nfinity".data := by
        have := mk_eq_str.mp hc
        simpa using this
      injection hc2 with hc3 _
      exact digit_ne (h2 c (by simp)) (by decide) hc3
    · have := mk_eq_str.mp hc
      have hlen := congrArg List.length this
      obtain ⟨c, cs, rfl⟩ := List.exists_cons_of_ne_nil h1
      obtain ⟨d, dt, rfl⟩ := List.exists_cons_of_ne_nil hne
      simp at hlen

/-- The characters kept by `parseSign` come from the input. -/
theorem parseSign_snd_sub {l : List Char} :
    ∀ c ∈ (parseSign l).2, c ∈ l := by
  unfold parseSign
  split
  next t => exact fun c hc => List.mem_cons_of_mem _ hc
  next t => exact fun c hc => List.mem_cons_of_mem _ hc
  next => exact fun c hc => hc

/-- The decimal branch rejects input with no digit at all. -/
theorem parseDecFloat_no_digit (neg : Bool) {r : List Char}
    (h : ∀ c ∈ r, c.isDigit = false) : parseDecFloat neg r = none := by
  rcases r with _ | ⟨c, t⟩
  · rfl
  have hdw := dropWhile_head_false (c :: t)
    (by rintro d ⟨rfl⟩; exact h c (by simp))
  unfold parseDecFloat
  rw [hdw.1, hdw.2]
  dsimp only
  by_cases hc : c = '.'
  · subst hc
    rw [fracSplit_dot,
      (dropWhile_head_false t
        (by rintro d hd
            exact h d (List.mem_cons_of_mem _ (List.mem_of_mem_head? hd)))).1]
    dsimp only
    rw [if_pos (by simp)]
  · rw [fracSplit_not_dot (by rintro d ⟨rfl⟩; exact hc)]
    dsimp only
    rw [if_pos (by simp)]

/-- ParseFloat rejects digit-free input that is not inf/nan. -/
theorem goParseFloat_no_digit {l : List Char}
    (hd : ∀ c ∈ l, c.isDigit = false)
    (hs : specialFloatForm l = false) :
    goParseFloat (String.mk l) = none := by
  rcases l with _ | ⟨c, cs⟩
  · rfl
  simp only [specialFloatForm, Bool.or_eq_false_iff,
    decide_eq_false_iff_not] at hs
  obtain ⟨⟨hi, hii⟩, hn⟩ := hs
  unfold goParseFloat
  dsimp only
  rw [if_neg, if_neg]
  · exact parseDecFloat_no_digit _
      (fun d hd2 => hd d (parseSign_snd_sub d hd2))
  · exact hn
  · rintro (h | h)
    · exact hi h
    · exact hii h

/-- ParseDuration yields the value 0 on digit-free input that does not
spell a ParseFloat special value. -/
theorem ParseDuration_no_digit (s : String)
    (hd : ∀ c ∈ s.data, c.isDigit = false)
    (hs : specialFloatForm (trimSpaceL s.data) = false) :
    (ParseDuration s).1 = 0 := by
  unfold ParseDuration
  dsimp only
  by_cases hsp : String.mk (trimSpaceL s.data) = "" ∨
      String.mk (trimSpaceL s.data) = "infinity" ∨
      String.mk (trimSpaceL s.data) = "0"
  · rw [if_pos hsp]
  · rw [if_neg hsp]
    have hd1 : ∀ c ∈ trimSpaceL s.data, c.isDigit = false :=
      fun c hc => hd c (mem_of_trimSpace hc)
    rw [goParseFloat_no_digit hd1 hs]
    dsimp only
    unfold parseSystemdTimeSpan
    rw [data_mk]
    dsimp only
    by_cases h0 : trimSpaceL (trimSpaceL s.data) = []
    · rw [if_pos h0]
    · rw [if_neg h0,
        scanMatchesF_no_digit _ _
          (fun c hc => hd1 c (mem_of_trimSpace hc)),
        if_pos rfl]
      rfl

/-- Every row of the amended unit table is checked against the code:
the word is a valid trailing word, and the multiplier the code computes
for the unit the regex matches inside it is the table's. -/
theorem unitTable_rows : ∀ p ∈ unitTable,
    wordOK p.1 = true ∧ unitMultNs (matchUnit p.1).1 = p.2 := by decide

/-- C3 counterexample: unit recognition is case-sensitive, not
case-insensitive as claimed, and `month` parses as minutes, not as 30
days: "1H" yields 1 second (the unmatched "H" is ignored), not 1 hour,
and "1month" yields 1 minute (the regex alternative `m` shadows
`month`), not 30 days. -/
theorem C3_duration_parser_counterexample :
    ParseDuration "1H" = (1000000000, false) ∧
      (1000000000 : ℤ) ≠ 3600000000000 ∧
      ParseDuration "1month" = (60000000000, false) ∧
      (60000000000 : ℤ) ≠ 2592000000000000 ∧
      ParseDuration "1M" = (60000000000, false) := by decide

/-- C3 (amended): the duration parser maps "", "0" and "infinity"
(whitespace-trimmed) to 0; maps a nonempty digit run to that many
seconds and digits '.' digits to the exact fractional count of seconds
truncated at nanosecond resolution; recognizes unit words
case-sensitively per `unitTable` (usec|us, msec|ms,
seconds|second|sec|s, minutes|minute|min|m and also M|months|month —
the regex alternative `m` shadows `month(s)` and the multiplier lookup
lowercases `M` — hours|hour|hr|h, days|day|d, weeks|week|w,
years|year|y); sums compound forms additively ("1h30min" → 5400s,
"100ms" → 0.1s); and yields the value 0 on digit-free input that does
not spell a ParseFloat special value. -/
theorem C3_duration_parser_amended :
    (ParseDuration "" = (0, false) ∧ ParseDuration "0" = (0, false) ∧
      ParseDuration "infinity" = (0, false) ∧
      ParseDuration " infinity " = (0, false)) ∧
    (∀ ds : List Char, ds ≠ [] → (∀ c ∈ ds, c.isDigit = true) →
      ParseDuration (String.mk ds) =
        (((natOfDigits ds * 1000000000 : ℕ) : ℤ), false)) ∧
    (∀ ds fs : List Char, ds ≠ [] → fs ≠ [] →
      (∀ c ∈ ds, c.isDigit = true) → (∀ c ∈ fs, c.isDigit = true) →
      ParseDuration (String.mk (ds ++ '.' :: fs)) =
        (((natOfDigits (ds ++ fs) * 1000000000 / 10 ^ fs.length : ℕ) :
          ℤ), false)) ∧
    (∀ p ∈ unitTable,
      wordOK p.1 = true ∧ unitMultNs (matchUnit p.1).1 = p.2) ∧
    (∀ (ds w : List Char) (mult : ℕ), ds ≠ [] →
      (∀ c ∈ ds, c.isDigit = true) → (w, mult) ∈ unitTable →
      ParseDuration (String.mk (ds ++ w)) =
        (((natOfDigits ds * mult : ℕ) : ℤ), false)) ∧
    (ParseDuration "5" = (5000000000, false) ∧
      ParseDuration "1h30min" = (5400000000000, false) ∧
      ParseDuration "100ms" = (100000000, false) ∧
      ParseDuration "0.1" = (100000000, false) ∧
      ParseDuration "hello" = (0, true)) ∧
    (∀ s : String, (∀ c ∈ s.data, c.isDigit = false) →
      specialFloatForm (trimSpaceL s.data) = false →
      (ParseDuration s).1 = 0) := by
  refine ⟨by decide, ?_, ?_, unitTable_rows, ?_, by decide, ?_⟩
  · exact fun ds h1 h2 => ParseDuration_digits h1 h2
  · exact fun ds fs h1 hf h2 h3 => ParseDuration_digits_frac h1 hf h2 h3
  · intro ds w mult h1 h2 hmem
    obtain ⟨hp1, hp2⟩ := unitTable_rows (w, mult) hmem
    have hp1' : wordOK w = true := hp1
    have hp2' : unitMultNs (matchUnit w).1 = mult := hp2
    rw [ParseDuration_digits_word h1 h2 hp1', hp2']
  · exact fun s hd hs => ParseDuration_no_digit s hd hs

/-- Witness for C3 (amended): "3h" parses to 3 hours via the unit-table
case of the amended statement. -/
theorem C3_duration_parser_amended_witness :
    (['3'] : List Char) ≠ [] ∧
      (∀ c ∈ (['3'] : List Char), c.isDigit = true) ∧
      ("h".data, 3600000000000) ∈ unitTable ∧
      ParseDuration (String.mk (['3'] ++ "h".data)) =
        ((3 * 3600000000000 : ℤ), false) := by
  refine ⟨by decide, by decide, by decide, ?_⟩
  have h := C3_duration_parser_amended.2.2.2.2.1 ['3'] "h".data
    3600000000000 (by decide) (by decide) (by decide)
  rw [h]
  decide

/-! ## C5 — mount unit name round-trip -/

theorem splitSlash_ne_nil : ∀ l : List Char, splitSlash l ≠ []
  | [] => by simp [splitSlash]
  | c :: cs => by
    rw [splitSlash]
    rcases hs : splitSlash cs with _ | ⟨s, ss⟩
    · exact absurd hs (splitSlash_ne_nil cs)
    · dsimp only
      by_cases hc : c = '/'
      · rw [if_pos hc]
        simp
      · rw [if_neg hc]
        simp

theorem splitSlash_cons_slash (l : List Char) :
    splitSlash ('/' :: l) = [] :: splitSlash l := by
  rw [splitSlash]
  rcases hs : splitSlash l with _ | ⟨s, ss⟩
  · exact absurd hs (splitSlash_ne_nil l)
  · dsimp only
    rw [if_pos rfl]

theorem joinSlash_splitSlash : ∀ l : List Char, joinSlash (splitSlash l) = l
  | [] => rfl
  | c :: cs => by
    have ih := joinSlash_splitSlash cs
    rw [splitSlash]
    rcases hs : splitSlash cs with _ | ⟨s, ss⟩
    · exact absurd hs (splitSlash_ne_nil cs)
    · rw [hs] at ih
      dsimp only
      by_cases hc : c = '/'
      · subst hc
        rw [if_pos rfl]
        show [] ++ '/' :: joinSlash (s :: ss) = '/' :: cs
        rw [ih]
        rfl
      · rw [if_neg hc]
        rcases ss with _ | ⟨s2, ss2⟩
        · show c :: s = c :: cs
          rw [show s = joinSlash [s] from rfl, ih]
        · show (c :: s) ++ '/' :: joinSlash (s2 :: ss2) = c :: cs
          rw [List.cons_append]
          exact congrArg (List.cons c) ih

theorem mem_splitSlash_char : ∀ (l : List Char) (c : Char), c ∈ l →
    c = '/' ∨ ∃ s ∈ splitSlash l, c ∈ s
  | [], c, hc => absurd hc (by simp)
  | a :: t, c, hc => by
    rw [splitSlash]
    rcases hs : splitSlash t with _ | ⟨s, ss⟩
    · exact absurd hs (splitSlash_ne_nil t)
    · dsimp only
      by_cases ha : a = '/'
      · rw [if_pos ha]
        rcases List.mem_cons.mp hc with rfl | hct
        · exact Or.inl ha
        · rcases mem_splitSlash_char t c hct with h | ⟨s2, hs2, hcs2⟩
          · exact Or.inl h
          · refine Or.inr ⟨s2, ?_, hcs2⟩
            rw [hs] at hs2
            exact List.mem_cons_of_mem _ hs2
      · rw [if_neg ha]
        rcases List.mem_cons.mp hc with rfl | hct
        · exact Or.inr ⟨c :: s, by simp, by simp⟩
        · rcases mem_splitSlash_char t c hct with h | ⟨s2, hs2, hcs2⟩
          · exact Or.inl h
          · rw [hs] at hs2
            rcases List.mem_cons.mp hs2 with rfl | hs3
            · exact Or.inr ⟨a :: s2, by simp, List.mem_cons_of_mem _ hcs2⟩
            · exact Or.inr ⟨s2, List.mem_cons_of_mem _ hs3, hcs2⟩

theorem lastMem {l : List Char} {a : Char} (h : l.getLast? = some a) :
    a ∈ l := by
  rw [← List.head?_reverse] at h
  exact List.mem_reverse.mp (List.mem_of_mem_head? h)

theorem amendedSegChar_facts {c : Char} (h : amendedSegChar c = true) :
    c ≠ '/' ∧ c ≠ '-' ∧ c ≠ '.' ∧ mountNameKeep c = true := by
  refine ⟨?_, ?_, ?_, ?_⟩
  · rintro rfl
    exact absurd h (by decide)
  · rintro rfl
    exact absurd h (by decide)
  · rintro rfl
    exact absurd h (by decide)
  · simp only [amendedSegChar, Bool.or_eq_true, decide_eq_true_eq] at h
    simp only [mountNameKeep, Bool.or_eq_true, decide_eq_true_eq]
    tauto

theorem resolveDots_aux (rooted : Bool) :
    ∀ (segs acc : List (List Char)), (∀ s ∈ segs, s ≠ ['.', '.']) →
      segs.foldl
        (fun acc s =>
          if s = ['.', '.'] then
            if acc ≠ [] ∧ acc.getLast? ≠ some ['.', '.'] then acc.dropLast
            else if rooted then acc else acc ++ [s]
          else acc ++ [s])
        acc = acc ++ segs
  | [], acc, _ => by simp
  | s :: ss, acc, h => by
    rw [List.foldl_cons, if_neg (h s (by simp)),
      resolveDots_aux rooted ss (acc ++ [s])
        (fun s2 hs2 => h s2 (by simp [hs2]))]
    simp

theorem resolveDots_id (rooted : Bool) (segs : List (List Char))
    (h : ∀ s ∈ segs, s ≠ ['.', '.']) : resolveDots rooted segs = segs := by
  unfold resolveDots
  rw [resolveDots_aux rooted segs [] h]
  rfl

theorem cleanPath_good {rest : List Char}
    (hsegs : ∀ s ∈ splitSlash rest,
      s ≠ [] ∧ ∀ c ∈ s, amendedSegChar c = true) :
    cleanPathL ('/' :: rest) = '/' :: rest := by
  unfold cleanPathL
  dsimp only
  rw [if_pos rfl, splitSlash_cons_slash,
    List.filter_cons_of_neg (by simp),
    List.filter_eq_self.mpr ?hf, resolveDots_id _ _ ?hd,
    joinSlash_splitSlash]
  case hf =>
    intro s hs
    simp only [decide_eq_true_eq, ne_eq]
    refine ⟨(hsegs s hs).1, ?_⟩
    intro h2
    exact absurd ((hsegs s hs).2 '.' (by rw [h2]; simp)) (by decide)
  case hd =>
    intro s hs h2
    exact absurd ((hsegs s hs).2 '.' (by rw [h2]; simp)) (by decide)

theorem startsWithL_append_self : ∀ (a b : List Char),
    startsWithL (a ++ b) a = true
  | [], b => by cases b <;> rfl
  | c :: a, b => by
    rw [List.cons_append]
    simp [startsWithL, startsWithL_append_self a b]

theorem trimSuf_append (x suf : List Char) : trimSufL (x ++ suf) suf = x := by
  have he : endsWithL (x ++ suf) suf = true := by
    unfold endsWithL
    rw [List.reverse_append]
    exact startsWithL_append_self suf.reverse x.reverse
  unfold trimSufL
  rw [if_pos he, List.length_append,
    show x.length + suf.length - suf.length = x.length by omega,
    List.take_left]

theorem trimPre_slash (rest : List Char) :
    trimPreL ('/' :: rest) ['/'] = rest := by
  have h : startsWithL ('/' :: rest) ['/'] = true := by
    simp [startsWithL]
  unfold trimPreL
  rw [if_pos h]
  rfl

theorem joinSlash_last : ∀ segs : List (List Char),
    (∀ s ∈ segs, s ≠ [] ∧ ∀ c ∈ s, amendedSegChar c = true) → segs ≠ [] →
    joinSlash segs ≠ [] ∧
      ∀ d, (joinSlash segs).getLast? = some d → amendedSegChar d = true
  | [], _, hne => absurd rfl hne
  | [s], h, _ => by
    refine ⟨(h s (by simp)).1, ?_⟩
    intro d hd
    exact (h s (by simp)).2 d (lastMem hd)
  | s :: s2 :: ss, h, _ => by
    have ih := joinSlash_last (s2 :: ss) (fun x hx => h x (by simp [hx]))
      (by simp)
    constructor
    · show s ++ '/' :: joinSlash (s2 :: ss) ≠ []
      simp
    · intro d hd
      have hd2 : ('/' :: joinSlash (s2 :: ss)).getLast? = some d := by
        rw [← List.getLast?_append_cons s '/' (joinSlash (s2 :: ss))]
        exact hd
      obtain ⟨x, xs, hx⟩ : ∃ x xs, joinSlash (s2 :: ss) = x :: xs := by
        rcases hj : joinSlash (s2 :: ss) with _ | ⟨x, xs⟩
        · exact absurd hj ih.1
        · exact ⟨x, xs, rfl⟩
      rw [hx, List.getLast?_cons_cons] at hd2
      exact ih.2 d (by rw [hx]; exact hd2)

theorem trimSuf_not_last {l : List Char} {c : Char}
    (h : ∀ d, l.getLast? = some d → d ≠ c) : trimSufL l [c] = l := by
  unfold trimSufL
  rw [if_neg]
  intro he
  unfold endsWithL at he
  rw [List.reverse_singleton] at he
  rcases hr : l.reverse with _ | ⟨d, ds⟩
  · rw [hr] at he
    simp [startsWithL] at he
  · rw [hr] at he
    have hds : startsWithL ds [] = true := by cases ds <;> rfl
    have hl : l.getLast? = some d := by
      rw [← List.head?_reverse, hr]
      rfl
    simp [startsWithL, hds] at he
    exact h d hl he

theorem flatMap_keep : ∀ l : List Char,
    (∀ c ∈ l, mountNameKeep c = true) →
    l.flatMap (fun c => if mountNameKeep c then [c] else hexEscapeL c) = l
  | [], _ => rfl
  | a :: t, h => by
    rw [List.flatMap_cons, if_pos (h a (by simp)),
      flatMap_keep t (fun c hc => h c (by simp [hc]))]
    rfl

theorem escape_keep {l : List Char} (h : ∀ c ∈ l, mountNameKeep c = true) :
    (escapeMountUnitName (String.mk l)).data = l := by
  unfold escapeMountUnitName
  rw [data_mk, data_mk, flatMap_keep l h]

theorem mapDashSlash {rest : List Char} (h : ∀ c ∈ rest, c ≠ '-') :
    (rest.map (fun c => if c = '/' then '-' else c)).map
      (fun c => if c = '-' then '/' else c) = rest := by
  induction rest with
  | nil => rfl
  | cons a t ih =>
    have ha := h a (List.mem_cons_self a t)
    have iht := ih (fun c hc => h c (List.mem_cons_of_mem _ hc))
    simp only [List.map_cons]
    rw [iht]
    congr 1
    by_cases hc : a = '/'
    · subst hc
      rfl
    · rw [if_neg hc, if_neg ha]

theorem roundtrip_rest {rest : List Char}
    (hsegs : ∀ s ∈ splitSlash rest,
      s ≠ [] ∧ ∀ c ∈ s, amendedSegChar c = true) :
    mountNameToPath (pathToMountUnitName (String.mk ('/' :: rest))) =
      String.mk ('/' :: rest) := by
  have hne : rest ≠ [] := by
    intro h
    subst h
    exact absurd rfl (hsegs [] (by simp [splitSlash])).1
  have hrest := joinSlash_splitSlash rest
  have hlast : ∀ d, rest.getLast? = some d → amendedSegChar d = true := by
    intro d hd
    have hj := joinSlash_last (splitSlash rest) hsegs (splitSlash_ne_nil rest)
    exact hj.2 d (by rw [hrest]; exact hd)
  have hmem : ∀ c ∈ rest, c = '/' ∨ amendedSegChar c = true := by
    intro c hc
    rcases mem_splitSlash_char rest c hc with h | ⟨s, hs, hcs⟩
    · exact Or.inl h
    · exact Or.inr ((hsegs s hs).2 c hcs)
  unfold pathToMountUnitName
  rw [if_neg (by intro hc; exact hne (by simpa using mk_eq_str.mp hc))]
  dsimp only
  rw [data_mk, cleanPath_good hsegs, trimPre_slash,
    trimSuf_not_last (fun d hd => (amendedSegChar_facts (hlast d hd)).1),
    escape_keep ?hk]
  case hk =>
    intro c hc
    obtain ⟨a, ha, rfl⟩ := List.mem_map.mp hc
    rcases hmem a ha with rfl | hA
    · decide
    · rw [if_neg (amendedSegChar_facts hA).1]
      exact (amendedSegChar_facts hA).2.2.2
  unfold mountNameToPath
  rw [data_mk, trimSuf_append, mapDashSlash ?hdash]
  case hdash =>
    intro c hc
    rcases hmem c hc with rfl | hA
    · decide
    · exact (amendedSegChar_facts hA).2.1

/-- C5 counterexample: the hyphen in the claimed segment class collides
with the separator encoding, so `path_to_mount_unit_name` is neither
injective nor round-trips on that class: "/a-b" and "/a/b" are distinct
paths in the class with the same mount unit name, and the inverse
mapping sends that shared name to "/a/b". -/
theorem C5_mount_roundtrip_counterexample :
    goodPathB "/a-b".data = true ∧ goodPathB "/a/b".data = true ∧
      ("/a-b" : String) ≠ "/a/b" ∧
      pathToMountUnitName "/a-b" = pathToMountUnitName "/a/b" ∧
      mountNameToPath (pathToMountUnitName "/a-b") = "/a/b" := by decide

/-- C5 (amended): on absolute paths whose slash-separated segments are
nonempty words over `[A-Za-z0-9_]` (hyphen excluded),
`pathToMountUnitName` followed by the spec's inverse mapping restores
the path, and `pathToMountUnitName` is injective. -/
theorem C5_mount_roundtrip_amended :
    ∀ p : List Char, goodPathAm p = true →
      mountNameToPath (pathToMountUnitName (String.mk p)) = String.mk p ∧
      ∀ q : List Char, goodPathAm q = true →
        pathToMountUnitName (String.mk p) =
          pathToMountUnitName (String.mk q) → p = q := by
  have main : ∀ p : List Char, goodPathAm p = true →
      mountNameToPath (pathToMountUnitName (String.mk p)) = String.mk p := by
    intro p hp
    rcases p with _ | ⟨c, rest⟩
    · exact absurd hp (by decide)
    · simp only [goodPathAm, Bool.and_eq_true, decide_eq_true_eq,
        List.all_eq_true] at hp
      obtain ⟨rfl, hsegs⟩ := hp
      apply roundtrip_rest
      intro s hs
      obtain ⟨h1, h2⟩ := hsegs s hs
      refine ⟨?_, h2⟩
      intro hnil
      rw [hnil] at h1
      exact absurd h1 (by decide)
  intro p hp
  refine ⟨main p hp, ?_⟩
  intro q hq heq
  have h3 : String.mk p = String.mk q := by
    rw [← main p hp, heq, main q hq]
  exact congrArg String.data h3

/-- Witness for C5 (amended): "/home/user" round-trips. -/
theorem C5_mount_roundtrip_amended_witness :
    goodPathAm "/home/user".data = true ∧
      mountNameToPath (pathToMountUnitName "/home/user") = "/home/user" := by
  refine ⟨by decide, ?_⟩
  exact (C5_mount_roundtrip_amended "/home/user".data (by decide)).1

end Sdaudit
